import Mathlib

/-!
# BBT fertility tracker: shallow embedding and verification

This file embeds the analysis core of the basal-body-temperature tracker
component (record store, CSV codec, fertile-window detector, cycle
predictor) as executable Lean definitions, and proves or refutes the
specification claims about it.

Modelling conventions:
* JS strings are Lean `String`s viewed through their `data : List Char`;
  the JS string operations used by the source (`trim`, `split`, `join`,
  `includes`, `toLowerCase`, `padStart`) are modelled by structural
  functions below (ASCII scope, which covers everything the app produces).
* JS numbers are modelled by exact fractions (`Frac`): every numeric value
  the analysis manipulates originates from decimal text via `parseFloat`,
  and the model gives those decimals exact rational semantics.
* Date values are civil (timezone-naive) dates; `new Date("YYYY-MM-DD")`
  together with `getDate`/`setDate`/`toISOString` is modelled by
  `parseIsoDate`, day-of-month access, `setDayOfMonth` and `isoString`
  on a day-count arithmetic (UTC runtime assumption; engine-specific
  legacy date formats are out of scope). An invalid date (`NaN` time
  value) is modelled by `Option.none`.
* React state updates are modelled by explicit store passing; operations
  that leave the store unchanged return results without a store.
-/

/-! ## Characters, digits, and JS string primitives -/

/-- ASCII whitespace, the subset of JS whitespace relevant to the app's data. -/
def isJsWs (c : Char) : Bool := c = ' ' || c = '\t' || c = '\n' || c = '\r'

/-- Model of `String.prototype.trim` on a character list. -/
def jsTrimList (l : List Char) : List Char :=
  ((l.dropWhile isJsWs).reverse.dropWhile isJsWs).reverse

/-- Model of `String.prototype.trim`. -/
def jsTrim (s : String) : String := ⟨jsTrimList s.data⟩

/-- Split a character list at every occurrence of `c` (JS `split` with a
one-character separator): always returns at least one piece. -/
def splitCharList (c : Char) : List Char → List (List Char)
  | [] => [[]]
  | x :: xs =>
    match splitCharList c xs with
    | [] => [[]]
    | g :: gs => if x = c then [] :: g :: gs else (x :: g) :: gs

/-- Model of `String.prototype.split` with a one-character separator. -/
def jsSplit (c : Char) (s : String) : List String :=
  (splitCharList c s.data).map String.mk

/-- Join character lists with a one-character separator (JS `Array.prototype.join`). -/
def joinCharList (c : Char) : List (List Char) → List Char
  | [] => []
  | [p] => p
  | p :: q :: ps => p ++ c :: joinCharList c (q :: ps)

/-- Model of `Array.prototype.join` with a one-character separator. -/
def jsJoin (c : Char) (pieces : List String) : String :=
  ⟨joinCharList c (pieces.map String.data)⟩

/-- Does `l` contain `sub` as a contiguous sublist? -/
def containsSubList (sub : List Char) : List Char → Bool
  | [] => sub.isEmpty
  | c :: cs => sub.isPrefixOf (c :: cs) || containsSubList sub cs

/-- Model of `String.prototype.includes`. -/
def strContains (s sub : String) : Bool := containsSubList sub.data s.data

/-- Model of `String.prototype.toLowerCase` (ASCII scope). -/
def strToLower (s : String) : String := ⟨s.data.map Char.toLower⟩

/-- Model of `String.prototype.padStart(2, '0')`. -/
def jsPadStart2 (s : String) : String :=
  ⟨List.replicate (2 - s.data.length) '0' ++ s.data⟩

/-- The numeric value of a decimal digit character. -/
def digitVal? (c : Char) : Option Nat :=
  if c.isDigit then some (c.toNat - 48) else none

/-- The character for a decimal digit. -/
def digitChar (n : Nat) : Char := Char.ofNat (48 + n)

/-- Decimal digits of `n`, least significant first, with explicit fuel so the
definition is structural (kernel-computable). -/
def natDigitsRevFuel : Nat → Nat → List Nat
  | 0, _ => []
  | _ + 1, 0 => []
  | fuel + 1, m + 1 => (m + 1) % 10 :: natDigitsRevFuel fuel ((m + 1) / 10)

/-- Decimal rendering of a natural number. -/
def natToString (n : Nat) : String :=
  if n = 0 then "0" else ⟨((natDigitsRevFuel (n + 1) n).map digitChar).reverse⟩

/-- Longest leading run of decimal digits, and the rest of the characters. -/
def takeDigits : List Char → List Nat × List Char
  | [] => ([], [])
  | c :: cs =>
    match digitVal? c with
    | some d =>
      let (ds, rest) := takeDigits cs
      (d :: ds, rest)
    | none => ([], c :: cs)

/-- The natural number denoted by a digit list (most significant first). -/
def digitsToNat (ds : List Nat) : Nat := ds.foldl (fun a d => a * 10 + d) 0

/-! ## Exact fractions

JS numbers entering the analysis are decimal literals; the model gives them
exact fraction semantics with kernel-friendly integer arithmetic. -/

/-- An exact fraction with integer numerator and natural denominator.
Comparisons below assume a positive denominator, which every fraction
built by the model satisfies. -/
structure Frac where
  num : Int
  den : Nat
deriving DecidableEq

/-- Addition of fractions (no normalization, mirroring exact value flow). -/
def fadd (a b : Frac) : Frac := ⟨a.num * b.den + b.num * a.den, a.den * b.den⟩

/-- Division of a fraction by a natural number. -/
def fdivNat (a : Frac) (n : Nat) : Frac := ⟨a.num, a.den * n⟩

/-- The fraction `n / 1`. -/
def intFrac (n : Int) : Frac := ⟨n, 1⟩

/-- Strict comparison of fractions by cross multiplication. -/
def fltB (a b : Frac) : Bool := decide (a.num * (b.den : Int) < b.num * (a.den : Int))

/-- Weak comparison of fractions by cross multiplication. -/
def fleB (a b : Frac) : Bool := decide (a.num * (b.den : Int) ≤ b.num * (a.den : Int))

/-- Truncation toward zero, modelling `ToIntegerOrInfinity` (used by `Date.setDate`). -/
def jsTruncFrac (f : Frac) : Int := Int.tdiv f.num f.den

/-- Model of `Math.round`: `⌊x + 1/2⌋`. -/
def jsRoundFrac (f : Frac) : Int := Int.fdiv (2 * f.num + f.den) (2 * (f.den : Int))

/-- Model of JS `parseFloat` on the decimal shapes the app handles: optional
sign, a digit run, and an optional fractional digit run; the result is the
longest valid prefix. Exponent notation and `Infinity` are outside the model
(the app's own CSV output never produces them). -/
def parseFloat (s : String) : Option Frac :=
  let cs := s.data
  let signAndRest : Int × List Char :=
    match cs with
    | '-' :: rest => (-1, rest)
    | '+' :: rest => (1, rest)
    | _ => (1, cs)
  let intPart := takeDigits signAndRest.2
  let fracDigits : List Nat :=
    match intPart.2 with
    | '.' :: rest2 => (takeDigits rest2).1
    | _ => []
  if intPart.1.isEmpty && fracDigits.isEmpty then none
  else some ⟨signAndRest.1 * (digitsToNat (intPart.1 ++ fracDigits) : Int), 10 ^ fracDigits.length⟩

/-- Reduce a fraction to lowest terms. -/
def fracNormalize (f : Frac) : Frac :=
  let g := Nat.gcd f.num.natAbs f.den
  if g = 0 then f else ⟨Int.tdiv f.num (g : Int), f.den / g⟩

/-- Left-pad a digit string with zeros to width `k`. -/
def padZeros (k : Nat) (s : String) : String :=
  ⟨List.replicate (k - s.data.length) '0' ++ s.data⟩

/-- Model of JS number-to-string conversion for exact decimal values: the
shortest decimal rendering (integers without a point, otherwise the minimal
number of fractional digits). Values without a finite decimal rendering get a
fallback never reached through the app's own data flow. -/
def printFrac (f0 : Frac) : String :=
  let f := fracNormalize f0
  let sign := if f.num < 0 then "-" else ""
  let n := f.num.natAbs
  match (List.range 21).find? (fun k => 10 ^ k % f.den == 0) with
  | some 0 => sign ++ natToString (n / f.den)
  | some (k + 1) =>
    let scaled := n * (10 ^ (k + 1) / f.den)
    sign ++ natToString (scaled / 10 ^ (k + 1)) ++ "." ++
      padZeros (k + 1) (natToString (scaled % 10 ^ (k + 1)))
  | none => sign ++ natToString n ++ "/" ++ natToString f.den

/-! ## Civil dates -/

/-- A civil (timezone-naive) calendar date. -/
structure CivilDate where
  year : Nat
  month : Nat
  day : Nat
deriving DecidableEq

/-- Gregorian leap-year rule. -/
def isLeapYear (y : Nat) : Bool := (y % 4 == 0 && y % 100 != 0) || y % 400 == 0

/-- Number of days in a month. -/
def daysInMonth (y m : Nat) : Nat :=
  if m = 2 then (if isLeapYear y then 29 else 28)
  else if m = 4 || m = 6 || m = 9 || m = 11 then 30
  else 31

/-- Model of `new Date(s)` validity for the strict `YYYY-MM-DD` shape: the
result is the civil date when `s` parses and denotes a real calendar date,
`none` when the time value would be `NaN` (invalid date). -/
def parseIsoDate (s : String) : Option CivilDate :=
  match s.data with
  | [y1, y2, y3, y4, h1, m1, m2, h2, d1, d2] =>
    match digitVal? y1, digitVal? y2, digitVal? y3, digitVal? y4,
          digitVal? m1, digitVal? m2, digitVal? d1, digitVal? d2 with
    | some a, some b, some c, some d, some e, some f, some g, some h =>
      if h1 = '-' && h2 = '-' then
        let y := 1000 * a + 100 * b + 10 * c + d
        let m := 10 * e + f
        let dd := 10 * g + h
        if 1 ≤ m && m ≤ 12 && 1 ≤ dd && dd ≤ daysInMonth y m then some ⟨y, m, dd⟩
        else none
      else none
    | _, _, _, _, _, _, _, _ => none
  | _ => none

/-- Days since 1970-01-01 of a civil date (standard civil-calendar algorithm). -/
def toEpochDay (dt : CivilDate) : Int :=
  let y : Int := if dt.month ≤ 2 then (dt.year : Int) - 1 else (dt.year : Int)
  let era : Int := Int.ediv y 400
  let yoe : Int := y - era * 400
  let mp : Int := Int.emod ((dt.month : Int) + 9) 12
  let doy : Int := Int.ediv (153 * mp + 2) 5 + (dt.day : Int) - 1
  let doe : Int := yoe * 365 + Int.ediv yoe 4 - Int.ediv yoe 100 + doy
  era * 146097 + doe - 719468

/-- Civil date of a day count since 1970-01-01. -/
def fromEpochDay (z0 : Int) : CivilDate :=
  let z := z0 + 719468
  let era := Int.ediv z 146097
  let doe := z - era * 146097
  let yoe := Int.ediv (doe - Int.ediv doe 1460 + Int.ediv doe 36524 - Int.ediv doe 146096) 365
  let y := yoe + era * 400
  let doy := doe - (365 * yoe + Int.ediv yoe 4 - Int.ediv yoe 100)
  let mp := Int.ediv (5 * doy + 2) 153
  let d := doy - Int.ediv (153 * mp + 2) 5 + 1
  let m := if mp < 10 then mp + 3 else mp - 9
  let yy := if m ≤ 2 then y + 1 else y
  ⟨yy.toNat, m.toNat, d.toNat⟩

/-- Two-digit zero-padded rendering. -/
def pad2 (n : Nat) : String := if n < 10 then "0" ++ natToString n else natToString n

/-- Four-digit zero-padded rendering. -/
def pad4 (n : Nat) : String := ⟨List.replicate (4 - (natToString n).data.length) '0' ++ (natToString n).data⟩

/-- Model of `toISOString().split('T')[0]` for a UTC-midnight date value. -/
def isoString (dt : CivilDate) : String :=
  pad4 dt.year ++ "-" ++ pad2 dt.month ++ "-" ++ pad2 dt.day

/-- Shift a civil date by a number of days. -/
def addDays (dt : CivilDate) (n : Int) : CivilDate := fromEpochDay (toEpochDay dt + n)

/-- Model of `Date.prototype.setDate v` on a civil date: day of month is set to
`v`, with out-of-range values rolling the month over. -/
def setDayOfMonth (dt : CivilDate) (v : Int) : CivilDate :=
  fromEpochDay (toEpochDay ⟨dt.year, dt.month, 1⟩ + v - 1)

/-! ## Data model -/

/-- One calendar day's reading, as stored by the component (the derived
`dateObj` field of the source is a recomputable cache and is omitted). -/
structure Reading where
  date : String
  temperature : Frac
  cervixHeight : Option String
  ovulationStrip : Bool
deriving DecidableEq

/-- Placeholder reading for positional access that the source guards by length. -/
def defaultReading : Reading :=
  { date := "", temperature := ⟨0, 1⟩, cervixHeight := none, ovulationStrip := false }

/-- A seven-reading span with its mean temperature, as built by the detector. -/
structure Week where
  startDate : String
  endDate : String
  avgTemp : Frac
  temperatures : List Reading
deriving DecidableEq

/-- A detected fertile window: a `Week` tagged with its `YYYY-MM` bucket. -/
structure FertileWindow where
  month : String
  startDate : String
  endDate : String
  avgTemp : Frac
  temperatures : List Reading
deriving DecidableEq

/-- The span data of a fertile window. -/
def FertileWindow.toWeek (w : FertileWindow) : Week :=
  ⟨w.startDate, w.endDate, w.avgTemp, w.temperatures⟩

/-- The projected next fertile window. -/
structure Prediction where
  startDate : String
  endDate : String
  cycleLength : Int
deriving DecidableEq

/-! ## Record store: sorting and direct entry -/

/-- The comparator `(a, b) => new Date(a.date) - new Date(b.date)`: strictly
negative exactly when both dates are valid and `a` is earlier (an invalid
date yields `NaN`, which the sort treats as 0). -/
def dateLtB (a b : Reading) : Bool :=
  match parseIsoDate a.date, parseIsoDate b.date with
  | some x, some y => decide (toEpochDay x < toEpochDay y)
  | _, _ => false

/-- Stable insertion of a reading before the first element not strictly earlier. -/
def insertByDate (r : Reading) : List Reading → List Reading
  | [] => [r]
  | x :: xs => if dateLtB x r then x :: insertByDate r xs else r :: x :: xs

/-- Model of `Array.prototype.sort` with the date comparator: the stable sort
by date (unique for consistent comparisons, i.e. when all dates are valid). -/
def sortByDate : List Reading → List Reading
  | [] => []
  | x :: xs => insertByDate x (sortByDate xs)

/-- Outcome of a direct-entry submission (`addTemperature`): a silent no-op on
empty input, a validation alert, or a new store. In the two failing outcomes
the component leaves the store untouched. -/
inductive AddResult where
  | noop : AddResult
  | validationError : AddResult
  | ok : List Reading → AddResult
deriving DecidableEq

/-- The entry built by `addTemperature` (`cervixHeight || null`). -/
def mkEntry (selectedDate : String) (temp : Frac) (cervixHeight : String)
    (ovulationStrip : Bool) : Reading :=
  { date := selectedDate, temperature := temp,
    cervixHeight := if cervixHeight = "" then none else some cervixHeight,
    ovulationStrip := ovulationStrip }

/-- Model of `addTemperature`: rejects an unparseable or out-of-range
temperature, then replaces the entry at an existing date or inserts sorted. -/
def addTemperature (temperatures : List Reading) (newTemp selectedDate cervixHeight : String)
    (ovulationStrip : Bool) : AddResult :=
  if newTemp = "" || selectedDate = "" then .noop
  else
    match parseFloat newTemp with
    | none => .validationError
    | some temp =>
      if fltB temp ⟨95, 1⟩ || fltB ⟨105, 1⟩ temp then .validationError
      else
        let newEntry := mkEntry selectedDate temp cervixHeight ovulationStrip
        match temperatures.findIdx? (fun t => t.date == selectedDate) with
        | some existingIndex => .ok (temperatures.set existingIndex newEntry)
        | none => .ok (sortByDate (temperatures ++ [newEntry]))

/-- The store after a direct-entry submission (failures leave it unchanged). -/
def storeAfterAdd (temperatures : List Reading) (newTemp selectedDate cervixHeight : String)
    (ovulationStrip : Bool) : List Reading :=
  match addTemperature temperatures newTemp selectedDate cervixHeight ovulationStrip with
  | .ok store => store
  | _ => temperatures

/-! ## Fertile window detector -/

/-- The `YYYY-MM` bucket of a reading (`date.substring(0, 7)`). -/
def monthKey (r : Reading) : String := ⟨r.date.data.take 7⟩

/-- Mean temperature of a span: `reduce((sum, t) => sum + t.temperature, 0) / 7`. -/
def weekAvg (weekTemps : List Reading) : Frac :=
  fdivNat (weekTemps.foldl (fun sum t => fadd sum t.temperature) ⟨0, 1⟩) 7

/-- The seven-reading span of a month group starting at offset `i`. -/
def mkWeek (monthTemps : List Reading) (i : Nat) : Week :=
  let weekTemps := (monthTemps.drop i).take 7
  { startDate := (weekTemps.getD 0 defaultReading).date,
    endDate := (weekTemps.getD 6 defaultReading).date,
    avgTemp := weekAvg weekTemps,
    temperatures := weekTemps }

/-- All seven-reading spans of a month group (offsets `0` to `len - 7`). -/
def sevenDayAverages (monthTemps : List Reading) : List Week :=
  (List.range (monthTemps.length + 1 - 7)).map (mkWeek monthTemps)

/-- One step of `reduce((max, current) => current.avgTemp > max.avgTemp ? current : max)`. -/
def chooseMax (mx cur : Week) : Week := if fltB mx.avgTemp cur.avgTemp then cur else mx

/-- The reduce over the span list; `none` models the throw on an empty array
(unreachable: a qualifying month yields at least eight spans). -/
def highestWeek? : List Week → Option Week
  | [] => none
  | w :: ws => some (ws.foldl chooseMax w)

/-- First occurrences of keys in order (object-key insertion order). -/
def distinctKeysAux (seen : List String) : List String → List String
  | [] => []
  | k :: ks =>
    if seen.contains k then distinctKeysAux seen ks
    else k :: distinctKeysAux (k :: seen) ks

/-- The distinct month keys in first-occurrence order. -/
def distinctKeys (l : List String) : List String := distinctKeysAux [] l

/-- JS default string comparison (by code units). -/
def strLtB (a b : String) : Bool := go a.data b.data
where
  go : List Char → List Char → Bool
    | [], [] => false
    | [], _ :: _ => true
    | _ :: _, [] => false
    | x :: xs, y :: ys => decide (x.toNat < y.toNat) || (x == y && go xs ys)

/-- Insertion keeping existing order among non-smaller elements. -/
def insertString (k : String) : List String → List String
  | [] => [k]
  | x :: xs => if strLtB x k then x :: insertString k xs else k :: x :: xs

/-- Model of `Object.keys(months).sort()`: default lexicographic sort. -/
def sortStrings : List String → List String
  | [] => []
  | x :: xs => insertString x (sortStrings xs)

/-- The per-month step of the detector: with at least 14 readings in the
month group, the span with the highest mean temperature becomes the window. -/
def monthWindow (sortedTemps : List Reading) (k : String) : Option FertileWindow :=
  let monthTemps := sortedTemps.filter (fun r => monthKey r == k)
  if 14 ≤ monthTemps.length then
    match highestWeek? (sevenDayAverages monthTemps) with
    | some wk => some { month := k, startDate := wk.startDate, endDate := wk.endDate,
                        avgTemp := wk.avgTemp, temperatures := wk.temperatures }
    | none => none
  else none

/-- Model of `analyzeFertileWindows` as a pure function of the store. With
fewer than 14 total readings the source returns early and leaves the
previously rendered windows; since the store never shrinks, that state is
always the empty list, which the model returns directly. -/
def analyzeFertileWindows (temperatures : List Reading) : List FertileWindow :=
  if temperatures.length < 14 then []
  else
    let sortedTemps := sortByDate temperatures
    let monthKeys := sortStrings (distinctKeys (sortedTemps.map monthKey))
    monthKeys.filterMap (monthWindow sortedTemps)

/-- The month group of a store: the readings of bucket `k` in sorted order. -/
def monthGroup (temperatures : List Reading) (k : String) : List Reading :=
  (sortByDate temperatures).filter (fun r => monthKey r == k)

/-! ## Cycle predictor -/

/-- Model of `calculateCycleLength`: `max(21, min(35, 28 + (dayOfMonth - 14)))`
on the window's start date; `none` models the `NaN` result of an invalid date. -/
def calculateCycleLength (fertileWindow : FertileWindow) : Option Int :=
  (parseIsoDate fertileWindow.startDate).map (fun d =>
    max 21 (min 35 (28 + ((d.day : Int) - 14))))

/-- Model of `predictNextFertileWindow`: averages the last two windows' cycle
lengths, advances the last start by that (fractional) amount via `setDate`
(which truncates), and rounds the average for display. `none` models both the
early return (fewer than two windows) and `NaN` propagation from invalid dates
(which would throw in `toISOString`). -/
def predictNextFertileWindow (windows : List FertileWindow) : Option Prediction :=
  if windows.length < 2 then none
  else
    match windows.drop (windows.length - 2) with
    | [w1, w2] =>
      match calculateCycleLength w1, calculateCycleLength w2, parseIsoDate w2.startDate with
      | some c1, some c2, some lastStart =>
        let avgCycleLength : Frac := ⟨c1 + c2, 2⟩
        let nextStart := setDayOfMonth lastStart
          (jsTruncFrac (fadd (intFrac lastStart.day) avgCycleLength))
        let nextEnd := setDayOfMonth nextStart ((nextStart.day : Int) + 6)
        some { startDate := isoString nextStart, endDate := isoString nextEnd,
               cycleLength := jsRoundFrac avgCycleLength }
      | _, _, _ => none
    | _ => none

/-- The app's prediction state: recomputed only when at least two windows exist. -/
def computePrediction (temperatures : List Reading) : Option Prediction :=
  let windows := analyzeFertileWindows temperatures
  if 2 ≤ windows.length then predictNextFertileWindow windows else none

/-! ## CSV import -/

/-- Outcome of a CSV import: a header error, an empty-result alert, an
uncaught-then-caught row exception, or a new store with its import count.
Only the `ok` outcome changes the store. -/
inductive ImportResult where
  | formatError : ImportResult
  | emptyResult : ImportResult
  | thrown : ImportResult
  | ok : List Reading → Nat → ImportResult
deriving DecidableEq

/-- Normalization of `M/D/YYYY` and `M/D/YY` dates; `none` models the
`undefined` left by a slash date without exactly three parts. -/
def normalizeSlashDate (dateStr : String) : Option String :=
  match jsSplit '/' dateStr with
  | [p1, p2, p3] =>
    let month := jsPadStart2 p1
    let day := jsPadStart2 p2
    let year := if p3.data.length = 2 then "20" ++ p3 else p3
    some (year ++ "-" ++ month ++ "-" ++ day)
  | _ => none

/-- The per-row step of `importCSV`. `Except.error` models the uncaught
`TypeError` of `ovulationStr.toLowerCase()` when the ovulation column index
lies beyond the row (`row[ovulationIndex]?.trim()` is `undefined`), which
aborts the whole import. `.ok none` models every `continue`. -/
def parseRow (existingDates : List String) (dateIndex tempIndex : Nat)
    (cervixIndex ovulationIndex : Option Nat) (line : String) :
    Except Unit (Option Reading) :=
  let row := jsSplit ',' line
  if row.length < max dateIndex tempIndex + 1 then .ok none
  else
    let dateStr := jsTrim (row.getD dateIndex "")
    let tempStr := jsTrim (row.getD tempIndex "")
    let cervixStr : Option String :=
      match cervixIndex with
      | some ci => (row.get? ci).map jsTrim
      | none => some ""
    let ovulationStr : Option String :=
      match ovulationIndex with
      | some oi => (row.get? oi).map jsTrim
      | none => some ""
    if !(strContains dateStr "/") && !(strContains dateStr "-") then .ok none
    else
      let date? : Option String :=
        if strContains dateStr "/" then normalizeSlashDate dateStr
        else some dateStr
      match parseFloat tempStr with
      | none => .ok none
      | some temp =>
        if fltB temp ⟨95, 1⟩ || fltB ⟨105, 1⟩ temp then .ok none
        else
          match date? with
          | none => .ok none
          | some date =>
            if (parseIsoDate date).isNone then .ok none
            else if existingDates.contains date then .ok none
            else
              match ovulationStr with
              | none => .error ()
              | some ovStr =>
                .ok (some { date := date, temperature := temp,
                            cervixHeight :=
                              match cervixStr with
                              | some c => if c = "" then none else some c
                              | none => none,
                            ovulationStrip :=
                              strToLower ovStr == "true" || ovStr == "1" ||
                                strToLower ovStr == "yes" })

/-- The data-row loop of `importCSV`, collecting accepted readings in order. -/
def collectRows (existingDates : List String) (dateIndex tempIndex : Nat)
    (cervixIndex ovulationIndex : Option Nat) : List String → Except Unit (List Reading)
  | [] => .ok []
  | line :: rest =>
    match parseRow existingDates dateIndex tempIndex cervixIndex ovulationIndex line with
    | .error e => .error e
    | .ok none => collectRows existingDates dateIndex tempIndex cervixIndex ovulationIndex rest
    | .ok (some r) =>
      match collectRows existingDates dateIndex tempIndex cervixIndex ovulationIndex rest with
      | .error e => .error e
      | .ok rs => .ok (r :: rs)

/-- Header resolution of `importCSV`: the first column containing "date",
"temp", "cervix"/"height", "ovulation"/"strip" (case-insensitive). -/
def headerIndices (headerLine : String) : Option Nat × Option Nat × Option Nat × Option Nat :=
  let headers := (jsSplit ',' headerLine).map (fun h => strToLower (jsTrim h))
  (headers.findIdx? (fun h => strContains h "date"),
   headers.findIdx? (fun h => strContains h "temp"),
   headers.findIdx? (fun h => strContains h "cervix" || strContains h "height"),
   headers.findIdx? (fun h => strContains h "ovulation" || strContains h "strip"))

/-- Model of `importCSV` on the file's text. -/
def importCSV (temperatures : List Reading) (csvText : String) : ImportResult :=
  let lines := jsSplit '\n' (jsTrim csvText)
  match headerIndices (lines.headD "") with
  | (some dateIndex, some tempIndex, cervixIndex, ovulationIndex) =>
    let existingDates := temperatures.map (fun t => t.date)
    match collectRows existingDates dateIndex tempIndex cervixIndex ovulationIndex
        (lines.drop 1) with
    | .error _ => .thrown
    | .ok importedData =>
      if importedData.length = 0 then .emptyResult
      else .ok (sortByDate (temperatures ++ importedData)) importedData.length
  | _ => .formatError

/-! ## CSV export -/

/-- Model of the window-membership query shared by chart, table and export:
inclusive string comparison of ISO dates. -/
def isInFertileWindow (fertileWindows : List FertileWindow) (date : String) : Bool :=
  fertileWindows.any (fun fw => !(strLtB date fw.startDate) && !(strLtB fw.endDate date))

/-- One exported data row: `[date, temperature, cervixHeight || '', ovulation, window].join(',')`. -/
def csvRowFor (fertileWindows : List FertileWindow) (t : Reading) : String :=
  jsJoin ',' [t.date, printFrac t.temperature,
              (match t.cervixHeight with | some c => c | none => ""),
              (if t.ovulationStrip then "Yes" else "No"),
              (if isInFertileWindow fertileWindows t.date then "Yes" else "No")]

/-- The exported header row (the source's literal header text). -/
def csvHeaderRow : String := "Date,Temperature (Â°F),Cervix Height,Ovulation Strip,Fertile Window"

/-- Model of `downloadCSV`: `none` models the early return on an empty store,
otherwise the produced CSV text. -/
def downloadCSV (temperatures : List Reading) (fertileWindows : List FertileWindow) :
    Option String :=
  if temperatures.length = 0 then none
  else some (jsJoin '\n' (csvHeaderRow :: temperatures.map (csvRowFor fertileWindows)))


/-! ## Auxiliary predicates and concrete stores used by the verification -/

/-- Do the readings of a list fall on consecutive civil days (each date one
epoch day after the previous)? -/
def consecutiveDatesB : List Reading → Bool
  | [] => true
  | [_] => true
  | a :: b :: rest =>
    decide ((parseIsoDate b.date).map toEpochDay =
      (parseIsoDate a.date).map (fun d => toEpochDay d + 1)) && consecutiveDatesB (b :: rest)

/-- The store invariant: at most one reading per calendar date. -/
def datesNodup (l : List Reading) : Prop := (l.map (fun r => r.date)).Nodup

/-- The readings a CSV import would append to the store (empty when the
header is rejected or a row throws). -/
def importedRowsOf (temperatures : List Reading) (csvText : String) : List Reading :=
  let lines := jsSplit '\n' (jsTrim csvText)
  match headerIndices (lines.headD "") with
  | (some dateIndex, some tempIndex, cervixIndex, ovulationIndex) =>
    match collectRows (temperatures.map (fun t => t.date)) dateIndex tempIndex cervixIndex
        ovulationIndex (lines.drop 1) with
    | .ok rs => rs
    | .error _ => []
  | _ => []

/-- Well-formedness of a stored reading under which the CSV round trip is
exact: a valid strict-ISO date, a temperature that round-trips through
printing and reparsing and lies in [95, 105], and a secondary signal that is
either absent or nonempty, trimmed, and free of separators. Direct entry
validates only the temperature, so a store can hold readings outside this
set (an invalid date string, or a free-text signal containing a comma);
this is an assumption on the store, not a reachability invariant. -/
def wfReading (r : Reading) : Prop :=
  (parseIsoDate r.date).isSome = true ∧
  strContains r.date "," = false ∧ strContains r.date "\n" = false ∧
  strContains r.date "/" = false ∧ strContains r.date "-" = true ∧
  jsTrim r.date = r.date ∧
  parseFloat (printFrac r.temperature) = some r.temperature ∧
  strContains (printFrac r.temperature) "," = false ∧
  strContains (printFrac r.temperature) "\n" = false ∧
  jsTrim (printFrac r.temperature) = printFrac r.temperature ∧
  fleB ⟨95, 1⟩ r.temperature = true ∧ fleB r.temperature ⟨105, 1⟩ = true ∧
  (match r.cervixHeight with
   | none => True
   | some c => c ≠ "" ∧ jsTrim c = c ∧ strContains c "," = false ∧
       strContains c "\n" = false)

instance (r : Reading) : Decidable (wfReading r) := by
  unfold wfReading
  cases r.cervixHeight
  all_goals
    dsimp only
    infer_instance

/-- A reading of 2024 with no secondary signals, for concrete stores. -/
def mkRead (mo d : Nat) (t : Frac) : Reading :=
  { date := "2024-" ++ pad2 mo ++ "-" ++ pad2 d, temperature := t,
    cervixHeight := none, ovulationStrip := false }

/-- Fourteen daily readings in January 2024: 97 °F on days 1-7, 98 °F on
days 8-14 (a store reachable by direct entry). -/
def demoStore : List Reading :=
  (List.range 14).map (fun i => mkRead 1 (i + 1) (if i + 1 ≤ 7 then ⟨97, 1⟩ else ⟨98, 1⟩))

/-- January 2024 readings on days 1-13 and day 20 (a gap month): 97 °F on
days 1-7, 98 °F afterwards, so the warmest 7-reading span crosses the gap. -/
def store1 : List Reading :=
  ((List.range 13).map (fun i => mkRead 1 (i + 1) (if i + 1 ≤ 7 then ⟨97, 1⟩ else ⟨98, 1⟩))) ++
    [mkRead 1 20 ⟨98, 1⟩]

/-- January days 1-20 (98 °F from day 14) and February days 1-21 (98 °F from
day 15), 2024: the detected windows start on 2024-01-14 and 2024-02-15, whose
cycle-length estimates 28 and 29 have a fractional average. -/
def store2 : List Reading :=
  ((List.range 20).map (fun i => mkRead 1 (i + 1) (if i + 1 < 14 then ⟨97, 1⟩ else ⟨98, 1⟩))) ++
    ((List.range 21).map (fun i => mkRead 2 (i + 1) (if i + 1 < 15 then ⟨97, 1⟩ else ⟨98, 1⟩)))


set_option maxRecDepth 10000

/-! ## Permutation lemmas for the sorts -/

theorem insertByDate_perm (r : Reading) (l : List Reading) :
    (insertByDate r l).Perm (r :: l) := by
  induction l with
  | nil => exact List.Perm.refl _
  | cons x xs ih =>
    by_cases h : dateLtB x r = true
    · simp only [insertByDate, h, if_true]
      exact ((ih.cons x).trans (List.Perm.swap r x xs))
    · simp only [insertByDate, h, if_false]
      exact List.Perm.refl _

theorem sortByDate_perm (l : List Reading) : (sortByDate l).Perm l := by
  induction l with
  | nil => exact List.Perm.refl _
  | cons x xs ih => exact (insertByDate_perm x (sortByDate xs)).trans (ih.cons x)

theorem sortByDate_length (l : List Reading) : (sortByDate l).length = l.length :=
  (sortByDate_perm l).length_eq

theorem insertString_perm (k : String) (l : List String) :
    (insertString k l).Perm (k :: l) := by
  induction l with
  | nil => exact List.Perm.refl _
  | cons x xs ih =>
    by_cases h : strLtB x k = true
    · simp only [insertString, h, if_true]
      exact ((ih.cons x).trans (List.Perm.swap k x xs))
    · simp only [insertString, h, if_false]
      exact List.Perm.refl _

theorem sortStrings_perm (l : List String) : (sortStrings l).Perm l := by
  induction l with
  | nil => exact List.Perm.refl _
  | cons x xs ih => exact (insertString_perm x (sortStrings xs)).trans (ih.cons x)

/-! ## Distinct month keys -/

theorem mem_distinctKeysAux (seen l : List String) (k : String) :
    k ∈ distinctKeysAux seen l ↔ k ∈ l ∧ ¬ k ∈ seen := by
  induction l generalizing seen with
  | nil => simp [distinctKeysAux]
  | cons k0 ks ih =>
    by_cases h : k0 ∈ seen
    · have hc : seen.contains k0 = true := List.elem_iff.2 h
      rw [distinctKeysAux, if_pos hc, ih]
      constructor
      · rintro ⟨hm, hs⟩
        exact ⟨List.mem_cons_of_mem _ hm, hs⟩
      · rintro ⟨hm, hs⟩
        rcases List.mem_cons.1 hm with rfl | hm
        · exact absurd h hs
        · exact ⟨hm, hs⟩
    · have hc : ¬ seen.contains k0 = true := fun hx => h (List.elem_iff.1 hx)
      rw [distinctKeysAux, if_neg hc]
      simp only [List.mem_cons, ih]
      constructor
      · rintro (rfl | ⟨hm, hs⟩)
        · exact ⟨Or.inl rfl, h⟩
        · exact ⟨Or.inr hm, fun hx => hs (Or.inr hx)⟩
      · rintro ⟨hm | hm, hs⟩
        · exact Or.inl hm
        · by_cases hk : k = k0
          · exact Or.inl hk
          · exact Or.inr ⟨hm, fun hx => hx.elim hk hs⟩

theorem nodup_distinctKeysAux (seen l : List String) : (distinctKeysAux seen l).Nodup := by
  induction l generalizing seen with
  | nil => simp [distinctKeysAux]
  | cons k0 ks ih =>
    by_cases h : k0 ∈ seen
    · have hc : seen.contains k0 = true := List.elem_iff.2 h
      rw [distinctKeysAux, if_pos hc]
      exact ih seen
    · have hc : ¬ seen.contains k0 = true := fun hx => h (List.elem_iff.1 hx)
      rw [distinctKeysAux, if_neg hc, List.nodup_cons]
      refine ⟨fun hx => ?_, ih (k0 :: seen)⟩
      exact ((mem_distinctKeysAux _ _ _).1 hx).2 (List.mem_cons_self _ _)

theorem mem_distinctKeys (l : List String) (k : String) : k ∈ distinctKeys l ↔ k ∈ l := by
  simp [distinctKeys, mem_distinctKeysAux]

theorem nodup_distinctKeys (l : List String) : (distinctKeys l).Nodup :=
  nodup_distinctKeysAux [] l

/-! ## Fraction order facts (under positive denominators) -/

theorem fltB_false_iff (a b : Frac) : fltB a b = false ↔ fleB b a = true := by
  simp only [fltB, fleB, decide_eq_false_iff_not, decide_eq_true_eq, not_lt]

theorem fleB_refl (a : Frac) : fleB a a = true := by
  simp [fleB]

theorem fleB_of_fltB {a b : Frac} (h : fltB a b = true) : fleB a b = true := by
  simp only [fltB, decide_eq_true_eq] at h
  simp only [fleB, decide_eq_true_eq]
  exact le_of_lt h

theorem fleB_trans {a b c : Frac} (hb : 0 < b.den) (h1 : fleB a b = true)
    (h2 : fleB b c = true) : fleB a c = true := by
  simp only [fleB, decide_eq_true_eq] at h1 h2 ⊢
  have hb' : (0 : Int) < (b.den : Int) := by exact_mod_cast hb
  have ha' : (0 : Int) ≤ (a.den : Int) := Int.ofNat_nonneg _
  have hc' : (0 : Int) ≤ (c.den : Int) := Int.ofNat_nonneg _
  nlinarith [mul_le_mul_of_nonneg_right h1 hc', mul_le_mul_of_nonneg_right h2 ha']

theorem fltB_of_fleB_of_fltB {a b c : Frac} (ha : 0 < a.den) (hb : 0 < b.den)
    (h1 : fleB a b = true) (h2 : fltB b c = true) : fltB a c = true := by
  simp only [fleB, decide_eq_true_eq] at h1
  simp only [fltB, decide_eq_true_eq] at h2 ⊢
  have hb' : (0 : Int) < (b.den : Int) := by exact_mod_cast hb
  have ha' : (0 : Int) < (a.den : Int) := by exact_mod_cast ha
  have hc' : (0 : Int) ≤ (c.den : Int) := Int.ofNat_nonneg _
  nlinarith [mul_le_mul_of_nonneg_right h1 hc', mul_lt_mul_of_pos_right h2 ha']

theorem fltB_of_fltB_of_fleB {a b c : Frac} (hb : 0 < b.den) (hc : 0 < c.den)
    (h1 : fltB a b = true) (h2 : fleB b c = true) : fltB a c = true := by
  simp only [fltB, decide_eq_true_eq] at h1 ⊢
  simp only [fleB, decide_eq_true_eq] at h2
  have hb' : (0 : Int) < (b.den : Int) := by exact_mod_cast hb
  have hc' : (0 : Int) < (c.den : Int) := by exact_mod_cast hc
  have ha' : (0 : Int) ≤ (a.den : Int) := Int.ofNat_nonneg _
  nlinarith [mul_lt_mul_of_pos_right h1 hc', mul_le_mul_of_nonneg_right h2 ha']

/-! ## The reduce over weekly averages selects the earliest maximum -/

/-- Placeholder week for positional access. -/
def defaultWeek : Week := ⟨"", "", ⟨0, 1⟩, []⟩

theorem getD_mem_of_lt {α : Type} (l : List α) (i : Nat) (h : i < l.length) (d : α) :
    l.getD i d ∈ l := by
  rw [List.getD_eq_getElem l d h]
  exact List.getElem_mem h

theorem foldl_chooseMax_spec (l : List Week) (acc : Week)
    (hacc : 0 < acc.avgTemp.den) (hl : ∀ w ∈ l, 0 < w.avgTemp.den) :
    (l.foldl chooseMax acc = acc ∧ ∀ w ∈ l, fleB w.avgTemp acc.avgTemp = true) ∨
    (∃ i, i < l.length ∧ l.foldl chooseMax acc = l.getD i defaultWeek ∧
      fltB acc.avgTemp (l.getD i defaultWeek).avgTemp = true ∧
      (∀ j, j < l.length → fleB (l.getD j defaultWeek).avgTemp (l.getD i defaultWeek).avgTemp = true) ∧
      (∀ j, j < i → fltB (l.getD j defaultWeek).avgTemp (l.getD i defaultWeek).avgTemp = true)) := by
  induction l generalizing acc with
  | nil => exact Or.inl ⟨rfl, by simp⟩
  | cons x xs ih =>
    have hx : 0 < x.avgTemp.den := hl x (List.mem_cons_self _ _)
    have hxs : ∀ w ∈ xs, 0 < w.avgTemp.den := fun w hw => hl w (List.mem_cons_of_mem _ hw)
    by_cases hcmp : fltB acc.avgTemp x.avgTemp = true
    · -- the accumulator is replaced by x
      have hstep : (x :: xs).foldl chooseMax acc = xs.foldl chooseMax x := by
        simp [List.foldl, chooseMax, hcmp]
      rcases ih x hx hxs with ⟨heq, hall⟩ | ⟨i, hi, heq, hgt, hmax, hfirst⟩
      · refine Or.inr ⟨0, by simp, ?_, ?_, ?_, ?_⟩
        · simpa [hstep, List.getD] using heq
        · simpa [List.getD] using hcmp
        · intro j hj
          match j with
          | 0 => simpa [List.getD] using fleB_refl x.avgTemp
          | j + 1 =>
            have hj' : j < xs.length := by simpa using hj
            simpa [List.getD] using hall _ (getD_mem_of_lt xs j hj' defaultWeek)
        · intro j hj
          omega
      · refine Or.inr ⟨i + 1, by simpa using hi, ?_, ?_, ?_, ?_⟩
        · simpa [hstep, List.getD] using heq
        · have hmem := hxs _ (getD_mem_of_lt xs i hi defaultWeek)
          simpa [List.getD] using fltB_of_fltB_of_fleB hx hmem hcmp (fleB_of_fltB hgt)
        · intro j hj
          match j with
          | 0 => simpa [List.getD] using fleB_of_fltB hgt
          | j + 1 =>
            have hj' : j < xs.length := by simpa using hj
            simpa [List.getD] using hmax j hj'
        · intro j hj
          match j with
          | 0 => simpa [List.getD] using hgt
          | j + 1 =>
            have hj' : j < i := by omega
            simpa [List.getD] using hfirst j hj'
    · -- the accumulator is kept
      have hxle : fleB x.avgTemp acc.avgTemp = true :=
        (fltB_false_iff _ _).1 (by simpa using hcmp)
      have hstep : (x :: xs).foldl chooseMax acc = xs.foldl chooseMax acc := by
        simp [List.foldl, chooseMax, hcmp]
      rcases ih acc hacc hxs with ⟨heq, hall⟩ | ⟨i, hi, heq, hgt, hmax, hfirst⟩
      · refine Or.inl ⟨by simpa [hstep] using heq, ?_⟩
        intro w hw
        rcases List.mem_cons.1 hw with rfl | hw
        · exact hxle
        · exact hall w hw
      · refine Or.inr ⟨i + 1, by simpa using hi, ?_, ?_, ?_, ?_⟩
        · simpa [hstep, List.getD] using heq
        · simpa [List.getD] using hgt
        · intro j hj
          match j with
          | 0 =>
            have := fleB_trans hacc hxle (fleB_of_fltB hgt)
            simpa [List.getD] using this
          | j + 1 =>
            have hj' : j < xs.length := by simpa using hj
            simpa [List.getD] using hmax j hj'
        · intro j hj
          match j with
          | 0 =>
            have := fltB_of_fleB_of_fltB hx hacc hxle hgt
            simpa [List.getD] using this
          | j + 1 =>
            have hj' : j < i := by omega
            simpa [List.getD] using hfirst j hj'

/-! ## Positive denominators flow through the averages -/

theorem foldl_fadd_den_pos (l : List Reading) (acc : Frac) (hacc : 0 < acc.den)
    (hl : ∀ r ∈ l, 0 < r.temperature.den) :
    0 < (l.foldl (fun sum t => fadd sum t.temperature) acc).den := by
  induction l generalizing acc with
  | nil => exact hacc
  | cons x xs ih =>
    refine ih (fadd acc x.temperature) ?_ (fun r hr => hl r (List.mem_cons_of_mem _ hr))
    have hx : 0 < x.temperature.den := hl x (List.mem_cons_self _ _)
    simpa [fadd] using Nat.mul_pos hacc hx

theorem weekAvg_den_pos (l : List Reading) (hl : ∀ r ∈ l, 0 < r.temperature.den) :
    0 < (weekAvg l).den := by
  have h := foldl_fadd_den_pos l ⟨0, 1⟩ (by decide) hl
  simpa [weekAvg, fdivNat] using Nat.mul_pos h (by decide : (0 : Nat) < 7)

theorem mkWeek_den_pos (g : List Reading) (i : Nat)
    (hg : ∀ r ∈ g, 0 < r.temperature.den) : 0 < (mkWeek g i).avgTemp.den := by
  refine weekAvg_den_pos _ (fun r hr => hg r ?_)
  exact List.mem_of_mem_drop (List.mem_of_mem_take hr)

/-! ## The span list of a month group -/

theorem sevenDayAverages_length (g : List Reading) :
    (sevenDayAverages g).length = g.length + 1 - 7 := by
  simp [sevenDayAverages]

theorem sevenDayAverages_getD (g : List Reading) (i : Nat) (hi : i < g.length + 1 - 7) :
    (sevenDayAverages g).getD i defaultWeek = mkWeek g i := by
  have hi' : i < (sevenDayAverages g).length := by simpa [sevenDayAverages_length]
  rw [List.getD_eq_getElem _ _ hi']
  simp [sevenDayAverages]

theorem mem_sevenDayAverages (g : List Reading) (w : Week)
    (hw : w ∈ sevenDayAverages g) : ∃ i, i < g.length + 1 - 7 ∧ w = mkWeek g i := by
  rcases List.mem_map.1 hw with ⟨i, hi, rfl⟩
  exact ⟨i, List.mem_range.1 hi, rfl⟩

/-! ## The per-month detector step -/

theorem monthWindow_month (sorted : List Reading) (k : String) (w : FertileWindow)
    (h : monthWindow sorted k = some w) : w.month = k := by
  simp only [monthWindow] at h
  split at h
  · split at h
    · have := Option.some.inj h
      subst this
      rfl
    · exact absurd h (by simp)
  · exact absurd h (by simp)

theorem monthWindow_spec (sorted : List Reading) (k : String)
    (hpos : ∀ r ∈ sorted, 0 < r.temperature.den)
    (h14 : 14 ≤ (sorted.filter (fun r => monthKey r == k)).length) :
    ∃ w, monthWindow sorted k = some w ∧ w.month = k ∧
      ∃ i, i + 7 ≤ (sorted.filter (fun r => monthKey r == k)).length ∧
        w.toWeek = mkWeek (sorted.filter (fun r => monthKey r == k)) i ∧
        (∀ j, j + 7 ≤ (sorted.filter (fun r => monthKey r == k)).length →
          fleB (mkWeek (sorted.filter (fun r => monthKey r == k)) j).avgTemp
            (mkWeek (sorted.filter (fun r => monthKey r == k)) i).avgTemp = true) ∧
        (∀ j, j < i →
          fltB (mkWeek (sorted.filter (fun r => monthKey r == k)) j).avgTemp
            (mkWeek (sorted.filter (fun r => monthKey r == k)) i).avgTemp = true) := by
  set g := sorted.filter (fun r => monthKey r == k) with hg
  have hgpos : ∀ r ∈ g, 0 < r.temperature.den :=
    fun r hr => hpos r (List.mem_filter.1 hr).1
  have hn : 8 ≤ g.length + 1 - 7 := by omega
  match hW : sevenDayAverages g with
  | [] =>
    have hempty := sevenDayAverages_length g
    rw [hW] at hempty
    simp at hempty
    omega
  | w0 :: ws =>
    have hw0 : w0 = mkWeek g 0 := by
      have := sevenDayAverages_getD g 0 (by omega)
      rw [hW] at this
      simpa [List.getD] using this
    have hlen : ws.length + 1 = g.length + 1 - 7 := by
      have := sevenDayAverages_length g
      rw [hW] at this
      simpa using this
    have hwsD : ∀ j, j < ws.length → ws.getD j defaultWeek = mkWeek g (j + 1) := by
      intro j hj
      have := sevenDayAverages_getD g (j + 1) (by omega)
      rw [hW] at this
      simpa [List.getD] using this
    have hmempos : ∀ w ∈ ws, 0 < w.avgTemp.den := by
      intro w hw
      have hmem : w ∈ sevenDayAverages g := by
        rw [hW]; exact List.mem_cons_of_mem _ hw
      rcases mem_sevenDayAverages g w hmem with ⟨i, _, rfl⟩
      exact mkWeek_den_pos g i hgpos
    have hw0pos : 0 < w0.avgTemp.den := by
      rw [hw0]; exact mkWeek_den_pos g 0 hgpos
    have hmw : monthWindow sorted k =
        some { month := k, startDate := (ws.foldl chooseMax w0).startDate,
               endDate := (ws.foldl chooseMax w0).endDate,
               avgTemp := (ws.foldl chooseMax w0).avgTemp,
               temperatures := (ws.foldl chooseMax w0).temperatures } := by
      unfold monthWindow
      rw [← hg, if_pos h14, hW]
      rfl
    rcases foldl_chooseMax_spec ws w0 hw0pos hmempos with ⟨heq, hall⟩ | ⟨i, hi, heq, hgt, hmax, hfirst⟩
    · refine ⟨_, hmw, rfl, 0, by omega, ?_, ?_, ?_⟩
      · simp only [FertileWindow.toWeek]
        rw [heq, hw0]
      · intro j hj
        match j with
        | 0 => exact fleB_refl _
        | j + 1 =>
          have hj2 : j < ws.length := by omega
          have hx := hall _ (getD_mem_of_lt ws j hj2 defaultWeek)
          rwa [hwsD j hj2, hw0] at hx
      · intro j hj
        omega
    · refine ⟨_, hmw, rfl, i + 1, by omega, ?_, ?_, ?_⟩
      · simp only [FertileWindow.toWeek]
        rw [heq, hwsD i hi]
      · intro j hj
        match j with
        | 0 =>
          have hx := fleB_of_fltB hgt
          rwa [hw0, hwsD i hi] at hx
        | j + 1 =>
          have hj2 : j < ws.length := by omega
          have hx := hmax j hj2
          rwa [hwsD j hj2, hwsD i hi] at hx
      · intro j hj
        match j with
        | 0 =>
          have hx := hgt
          rwa [hw0, hwsD i hi] at hx
        | j + 1 =>
          have hj2 : j < i := by omega
          have hj3 : j < ws.length := by omega
          have hx := hfirst j hj2
          rwa [hwsD j hj3, hwsD i hi] at hx

/-! ## Windows per month bucket -/

theorem filterMap_monthWindow_filter (sorted : List Reading) (keys : List String)
    (hnd : keys.Nodup) (k : String) :
    (keys.filterMap (monthWindow sorted)).filter (fun w => w.month == k) =
      (if k ∈ keys then (monthWindow sorted k).toList else []) := by
  induction keys with
  | nil => simp
  | cons k0 rest ih =>
    have hk0 : k0 ∉ rest := (List.nodup_cons.1 hnd).1
    have hnd' : rest.Nodup := (List.nodup_cons.1 hnd).2
    rw [List.filterMap_cons]
    cases hmw : monthWindow sorted k0 with
    | none =>
      by_cases hk : k = k0
      · subst hk
        have hkr : k ∉ rest := hk0
        rw [ih hnd', if_neg hkr, if_pos (List.mem_cons_self _ _), hmw]
        rfl
      · rw [ih hnd']
        by_cases hkr : k ∈ rest
        · rw [if_pos hkr, if_pos (List.mem_cons_of_mem _ hkr)]
        · rw [if_neg hkr, if_neg (by simp [List.mem_cons, hk, hkr])]
    | some w =>
      have hwm : w.month = k0 := monthWindow_month sorted k0 w hmw
      rw [List.filter_cons]
      by_cases hk : k = k0
      · subst hk
        have hkr : k ∉ rest := hk0
        rw [if_pos (by simp [hwm]), ih hnd', if_neg hkr, if_pos (List.mem_cons_self _ _), hmw]
        rfl
      · rw [if_neg (by simp [hwm]; exact fun hx => hk hx.symm), ih hnd']
        by_cases hkr : k ∈ rest
        · rw [if_pos hkr, if_pos (List.mem_cons_of_mem _ hkr)]
        · rw [if_neg hkr, if_neg (by simp [List.mem_cons, hk, hkr])]

theorem analyze_month_some (store : List Reading) (k : String)
    (hpos : ∀ r ∈ store, 0 < r.temperature.den)
    (h14 : 14 ≤ (monthGroup store k).length) :
    ∃ w, (analyzeFertileWindows store).filter (fun w => w.month == k) = [w] ∧
      w.month = k ∧
      ∃ i, i + 7 ≤ (monthGroup store k).length ∧
        w.toWeek = mkWeek (monthGroup store k) i ∧
        (∀ j, j + 7 ≤ (monthGroup store k).length →
          fleB (mkWeek (monthGroup store k) j).avgTemp
            (mkWeek (monthGroup store k) i).avgTemp = true) ∧
        (∀ j, j < i →
          fltB (mkWeek (monthGroup store k) j).avgTemp
            (mkWeek (monthGroup store k) i).avgTemp = true) := by
  have hpos' : ∀ r ∈ sortByDate store, 0 < r.temperature.den :=
    fun r hr => hpos r ((sortByDate_perm store).mem_iff.1 hr)
  have h14' : 14 ≤ ((sortByDate store).filter (fun r => monthKey r == k)).length := h14
  rcases monthWindow_spec (sortByDate store) k hpos' h14' with
    ⟨w, hmw, hmonth, i, hi, htw, hmax, hfirst⟩
  refine ⟨w, ?_, hmonth, i, hi, htw, hmax, hfirst⟩
  have hglen : (monthGroup store k).length ≤ store.length := by
    have h1 := List.length_filter_le (fun r => monthKey r == k) (sortByDate store)
    have h2 := sortByDate_length store
    simp only [monthGroup]
    omega
  have hbig : ¬ store.length < 14 := by omega
  have hnd : (sortStrings (distinctKeys ((sortByDate store).map monthKey))).Nodup :=
    ((sortStrings_perm _).nodup_iff).2 (nodup_distinctKeys _)
  have hkmem : k ∈ sortStrings (distinctKeys ((sortByDate store).map monthKey)) := by
    have hpos0 : 0 < (monthGroup store k).length := by omega
    rcases List.exists_mem_of_length_pos hpos0 with ⟨r, hr⟩
    have hr' := List.mem_filter.1 hr
    have hkey : monthKey r = k := by simpa using hr'.2
    refine ((sortStrings_perm _).mem_iff).2 ?_
    refine (mem_distinctKeys _ _).2 ?_
    exact List.mem_map.2 ⟨r, hr'.1, hkey⟩
  simp only [analyzeFertileWindows, if_neg hbig]
  rw [filterMap_monthWindow_filter _ _ hnd k, if_pos hkmem, hmw]
  rfl

theorem analyze_month_none (store : List Reading) (k : String)
    (hle : (monthGroup store k).length ≤ 13) :
    (analyzeFertileWindows store).filter (fun w => w.month == k) = [] := by
  by_cases hsmall : store.length < 14
  · simp [analyzeFertileWindows, if_pos hsmall]
  · have hnd : (sortStrings (distinctKeys ((sortByDate store).map monthKey))).Nodup :=
      ((sortStrings_perm _).nodup_iff).2 (nodup_distinctKeys _)
    simp only [analyzeFertileWindows, if_neg hsmall]
    rw [filterMap_monthWindow_filter _ _ hnd k]
    by_cases hk : k ∈ sortStrings (distinctKeys ((sortByDate store).map monthKey))
    · rw [if_pos hk]
      have hnone : monthWindow (sortByDate store) k = none := by
        have : ¬ 14 ≤ ((sortByDate store).filter (fun r => monthKey r == k)).length := by
          have : ((sortByDate store).filter (fun r => monthKey r == k)).length ≤ 13 := hle
          omega
        simp [monthWindow, this]
      rw [hnone]
      rfl
    · rw [if_neg hk]

/-! ## Claim C5 -/

/-- C5: for every store state, the detector emits exactly one FertileWindow
for each `YYYY-MM` month group with at least 14 readings — the span of 7
consecutive readings by position (ascending date order) whose mean
temperature is maximal — and emits no window for a month with 13 or fewer
readings. (`hpos` is the reachable-store fact that every stored temperature
is a fraction with positive denominator.) -/
theorem claim_C5 (store : List Reading) (k : String)
    (hpos : ∀ r ∈ store, 0 < r.temperature.den) :
    (14 ≤ (monthGroup store k).length →
      ∃ w, (analyzeFertileWindows store).filter (fun w => w.month == k) = [w] ∧
        ∃ i, i + 7 ≤ (monthGroup store k).length ∧
          w.toWeek = mkWeek (monthGroup store k) i ∧
          ∀ j, j + 7 ≤ (monthGroup store k).length →
            fleB (mkWeek (monthGroup store k) j).avgTemp
              (mkWeek (monthGroup store k) i).avgTemp = true) ∧
    ((monthGroup store k).length ≤ 13 →
      (analyzeFertileWindows store).filter (fun w => w.month == k) = []) := by
  constructor
  · intro h14
    rcases analyze_month_some store k hpos h14 with ⟨w, hfilter, _, i, hi, htw, hmax, _⟩
    exact ⟨w, hfilter, i, hi, htw, hmax⟩
  · exact analyze_month_none store k

theorem claim_C5_witness :
    ∃ w, (analyzeFertileWindows demoStore).filter (fun w => w.month == "2024-01") = [w] ∧
      ∃ i, i + 7 ≤ (monthGroup demoStore "2024-01").length ∧
        w.toWeek = mkWeek (monthGroup demoStore "2024-01") i ∧
        ∀ j, j + 7 ≤ (monthGroup demoStore "2024-01").length →
          fleB (mkWeek (monthGroup demoStore "2024-01") j).avgTemp
            (mkWeek (monthGroup demoStore "2024-01") i).avgTemp = true :=
  (claim_C5 demoStore "2024-01" (by decide)).1 (by decide)

/-! ## Claim C6 -/

/-- C6: when two or more 7-reading spans of a qualifying month attain the
same maximal mean, the detector selects the span with the lower starting
offset: the emitted window sits at an offset whose mean is maximal and
strictly exceeds the mean of every earlier offset (so on an exact tie the
earlier offset wins). -/
theorem claim_C6 (store : List Reading) (k : String)
    (hpos : ∀ r ∈ store, 0 < r.temperature.den)
    (h14 : 14 ≤ (monthGroup store k).length) :
    ∃ w, (analyzeFertileWindows store).filter (fun w => w.month == k) = [w] ∧
      ∃ i, i + 7 ≤ (monthGroup store k).length ∧
        w.toWeek = mkWeek (monthGroup store k) i ∧
        (∀ j, j + 7 ≤ (monthGroup store k).length →
          fleB (mkWeek (monthGroup store k) j).avgTemp
            (mkWeek (monthGroup store k) i).avgTemp = true) ∧
        (∀ j, j < i →
          fltB (mkWeek (monthGroup store k) j).avgTemp
            (mkWeek (monthGroup store k) i).avgTemp = true) := by
  rcases analyze_month_some store k hpos h14 with ⟨w, hfilter, _, i, hi, htw, hmax, hfirst⟩
  exact ⟨w, hfilter, i, hi, htw, hmax, hfirst⟩

theorem claim_C6_witness :
    ∃ w, (analyzeFertileWindows demoStore).filter (fun w => w.month == "2024-01") = [w] ∧
      ∃ i, i + 7 ≤ (monthGroup demoStore "2024-01").length ∧
        w.toWeek = mkWeek (monthGroup demoStore "2024-01") i ∧
        (∀ j, j + 7 ≤ (monthGroup demoStore "2024-01").length →
          fleB (mkWeek (monthGroup demoStore "2024-01") j).avgTemp
            (mkWeek (monthGroup demoStore "2024-01") i).avgTemp = true) ∧
        (∀ j, j < i →
          fltB (mkWeek (monthGroup demoStore "2024-01") j).avgTemp
            (mkWeek (monthGroup demoStore "2024-01") i).avgTemp = true) :=
  claim_C6 demoStore "2024-01" (by decide) (by decide)

/-! ## Every emitted window is a seven-reading span -/

theorem foldl_chooseMax_mem (l : List Week) (acc : Week) :
    l.foldl chooseMax acc = acc ∨ l.foldl chooseMax acc ∈ l := by
  induction l generalizing acc with
  | nil => exact Or.inl rfl
  | cons x xs ih =>
    have hstep : (x :: xs).foldl chooseMax acc = xs.foldl chooseMax (chooseMax acc x) := rfl
    rcases ih (chooseMax acc x) with h | h
    · rw [hstep, h]
      by_cases hc : fltB acc.avgTemp x.avgTemp = true
      · exact Or.inr (by simp [chooseMax, hc])
      · exact Or.inl (by simp [chooseMax, hc])
    · exact Or.inr (by rw [hstep]; exact List.mem_cons_of_mem _ h)

theorem highestWeek?_mem (l : List Week) (w : Week) (h : highestWeek? l = some w) :
    w ∈ l := by
  cases l with
  | nil => simp [highestWeek?] at h
  | cons w0 ws =>
    simp only [highestWeek?] at h
    have hfold := Option.some.inj h
    rcases foldl_chooseMax_mem ws w0 with h1 | h1
    · rw [hfold] at h1
      rw [← h1]
      exact List.mem_cons_self _ _
    · rw [hfold] at h1
      exact List.mem_cons_of_mem _ h1

theorem monthWindow_some_inv (sorted : List Reading) (k : String) (w : FertileWindow)
    (h : monthWindow sorted k = some w) :
    ∃ i, i + 7 ≤ (sorted.filter (fun r => monthKey r == k)).length ∧
      w.toWeek = mkWeek (sorted.filter (fun r => monthKey r == k)) i := by
  simp only [monthWindow] at h
  split at h
  case isTrue h14 =>
    split at h
    case h_1 wk hwk =>
      have hww := Option.some.inj h
      have hmem := highestWeek?_mem _ _ hwk
      rcases mem_sevenDayAverages _ _ hmem with ⟨i, hi, rfl⟩
      refine ⟨i, by omega, ?_⟩
      rw [← hww]
      rfl
    case h_2 => exact absurd h (by simp)
  case isFalse => exact absurd h (by simp)

theorem mem_analyze_inv (store : List Reading) (w : FertileWindow)
    (hw : w ∈ analyzeFertileWindows store) :
    ∃ g i, i + 7 ≤ g.length ∧ w.toWeek = mkWeek g i := by
  simp only [analyzeFertileWindows] at hw
  split at hw
  · simp at hw
  · rcases List.mem_filterMap.1 hw with ⟨k, _, hmw⟩
    rcases monthWindow_some_inv _ _ _ hmw with ⟨i, hi, htw⟩
    exact ⟨_, i, hi, htw⟩

/-! ## Chains of consecutive dates -/

theorem consecutiveDatesB_step (l : List Reading) (h : consecutiveDatesB l = true)
    (k : Nat) (hk : k + 1 < l.length) :
    (parseIsoDate ((l.getD (k + 1) defaultReading).date)).map toEpochDay =
      (parseIsoDate ((l.getD k defaultReading).date)).map (fun d => toEpochDay d + 1) := by
  induction l generalizing k with
  | nil => simp at hk
  | cons a l' ih =>
    cases l' with
    | nil => simp at hk
    | cons b rest =>
      simp only [consecutiveDatesB, Bool.and_eq_true, decide_eq_true_eq] at h
      match k with
      | 0 => exact h.1
      | k + 1 =>
        have hk' : k + 1 < (b :: rest).length := by simpa using hk
        have := ih h.2 k hk'
        simpa [List.getD] using this

theorem consecutive_epoch_chain (l : List Reading) (h : consecutiveDatesB l = true)
    (j : Nat) (hj : j < l.length) :
    (parseIsoDate ((l.getD j defaultReading).date)).map toEpochDay =
      (parseIsoDate ((l.getD 0 defaultReading).date)).map (fun d => toEpochDay d + j) := by
  induction j with
  | zero => simp
  | succ j ih =>
    have hj' : j < l.length := by omega
    have hstep := consecutiveDatesB_step l h j hj
    have hih := ih hj'
    have h1 : (parseIsoDate ((l.getD (j + 1) defaultReading).date)).map toEpochDay =
        ((parseIsoDate ((l.getD j defaultReading).date)).map toEpochDay).map
          (fun n => n + 1) := by
      rw [hstep, Option.map_map]
      rfl
    rw [h1, hih, Option.map_map]
    refine Option.map_congr ?_
    intro d _
    show toEpochDay d + (j : Int) + 1 = toEpochDay d + ((j + 1 : Nat) : Int)
    push_cast
    ring

/-! ## Claim C1 -/

/-- C1 counterexample: in `store1`, January 2024 has 14 readings on days
1-13 and 20, and the warmest 7-reading span runs from 2024-01-08 to
2024-01-20 — not to 2024-01-14, which is startDate + 6 calendar days. -/
theorem claim_C1_counterexample :
    (analyzeFertileWindows store1).map (fun w => (w.startDate, w.endDate)) =
      [("2024-01-08", "2024-01-20")] ∧
    parseIsoDate "2024-01-08" = some ⟨2024, 1, 8⟩ ∧
    isoString (addDays ⟨2024, 1, 8⟩ 6) = "2024-01-14" ∧
    ("2024-01-20" : String) ≠ "2024-01-14" := by
  refine ⟨by decide, by decide, by decide, by decide⟩

/-- C1 amended: every emitted FertileWindow spans exactly 7 readings by
position; its startDate and endDate are the dates of the first and seventh
readings of the span, and the endDate denotes the calendar date 6 days after
the startDate exactly when the span's readings fall on consecutive calendar
days (which a month with gaps need not satisfy). -/
theorem claim_C1_amended (store : List Reading) (w : FertileWindow)
    (hw : w ∈ analyzeFertileWindows store) :
    w.temperatures.length = 7 ∧
    w.startDate = (w.temperatures.getD 0 defaultReading).date ∧
    w.endDate = (w.temperatures.getD 6 defaultReading).date ∧
    (consecutiveDatesB w.temperatures = true →
      (parseIsoDate w.endDate).map toEpochDay =
        (parseIsoDate w.startDate).map (fun d => toEpochDay d + 6)) := by
  rcases mem_analyze_inv store w hw with ⟨g, i, hi, htw⟩
  have hstart : w.startDate = (mkWeek g i).startDate := congrArg Week.startDate htw
  have hend : w.endDate = (mkWeek g i).endDate := congrArg Week.endDate htw
  have htemps : w.temperatures = (mkWeek g i).temperatures := congrArg Week.temperatures htw
  have hlen : w.temperatures.length = 7 := by
    rw [htemps]
    simp only [mkWeek, List.length_take, List.length_drop]
    omega
  have hs : w.startDate = (w.temperatures.getD 0 defaultReading).date := by
    rw [hstart, htemps]
    rfl
  have he : w.endDate = (w.temperatures.getD 6 defaultReading).date := by
    rw [hend, htemps]
    rfl
  refine ⟨hlen, hs, he, fun hcons => ?_⟩
  have hchain := consecutive_epoch_chain w.temperatures hcons 6 (by omega)
  rw [hs, he]
  simpa using hchain

theorem claim_C1_amended_witness :
    ((analyzeFertileWindows demoStore).headD ⟨"", "", "", ⟨0, 1⟩, []⟩).temperatures.length = 7 ∧
    ((analyzeFertileWindows demoStore).headD ⟨"", "", "", ⟨0, 1⟩, []⟩).startDate =
      ((((analyzeFertileWindows demoStore).headD ⟨"", "", "", ⟨0, 1⟩, []⟩).temperatures.getD 0
        defaultReading)).date ∧
    ((analyzeFertileWindows demoStore).headD ⟨"", "", "", ⟨0, 1⟩, []⟩).endDate =
      ((((analyzeFertileWindows demoStore).headD ⟨"", "", "", ⟨0, 1⟩, []⟩).temperatures.getD 6
        defaultReading)).date ∧
    (consecutiveDatesB ((analyzeFertileWindows demoStore).headD ⟨"", "", "", ⟨0, 1⟩, []⟩).temperatures = true →
      (parseIsoDate ((analyzeFertileWindows demoStore).headD ⟨"", "", "", ⟨0, 1⟩, []⟩).endDate).map toEpochDay =
        (parseIsoDate ((analyzeFertileWindows demoStore).headD ⟨"", "", "", ⟨0, 1⟩, []⟩).startDate).map
          (fun d => toEpochDay d + 6)) :=
  claim_C1_amended demoStore _ (by decide)

/-! ## Claim C2 -/

theorem calculateCycleLength_bounds (fw : FertileWindow) (c : Int)
    (h : calculateCycleLength fw = some c) : 21 ≤ c ∧ c ≤ 35 := by
  simp only [calculateCycleLength] at h
  rcases Option.map_eq_some'.1 h with ⟨d, _, hval⟩
  omega

theorem toEpochDay_day_shift (y m d : Nat) :
    toEpochDay ⟨y, m, d⟩ = toEpochDay ⟨y, m, 1⟩ + d - 1 := by
  simp only [toEpochDay]
  push_cast
  ring

theorem jsTrunc_add_int (a : Int) (f : Frac) (ha : 0 ≤ a) (hnum : 0 ≤ f.num)
    (hden : 0 < f.den) : jsTruncFrac (fadd (intFrac a) f) = a + jsTruncFrac f := by
  have hden' : (0 : Int) < (f.den : Int) := by exact_mod_cast hden
  have h1 : fadd (intFrac a) f = ⟨a * f.den + f.num * 1, 1 * f.den⟩ := rfl
  rw [h1]
  simp only [jsTruncFrac, mul_one, one_mul]
  have h2 : Int.tdiv (a * f.den + f.num) f.den = (a * f.den + f.num) / f.den :=
    Int.tdiv_eq_ediv (by positivity) (le_of_lt hden')
  have h3 : Int.tdiv f.num f.den = f.num / f.den :=
    Int.tdiv_eq_ediv hnum (le_of_lt hden')
  rw [h2, h3]
  have h4 : a * (f.den : Int) + f.num = f.num + (f.den : Int) * a := by ring
  rw [h4, Int.add_mul_ediv_left f.num a (ne_of_gt hden')]
  ring

theorem setDayOfMonth_add (dt : CivilDate) (k : Int) :
    setDayOfMonth dt ((dt.day : Int) + k) = addDays dt k := by
  simp only [setDayOfMonth, addDays]
  congr 1
  have h := toEpochDay_day_shift dt.year dt.month dt.day
  have heta : toEpochDay ⟨dt.year, dt.month, dt.day⟩ = toEpochDay dt := rfl
  rw [heta] at h
  omega

theorem jsTrunc_eq_jsRound_of_even (s : Int) (hs : 0 ≤ s) (heven : s % 2 = 0) :
    jsTruncFrac ⟨s, 2⟩ = jsRoundFrac ⟨s, 2⟩ := by
  simp only [jsTruncFrac, jsRoundFrac]
  have h2 : Int.tdiv s ((2 : Nat) : Int) = s / ((2 : Nat) : Int) :=
    Int.tdiv_eq_ediv hs (by decide)
  have h3 : Int.fdiv (2 * s + ((2 : Nat) : Int)) (2 * ((2 : Nat) : Int)) =
      (2 * s + ((2 : Nat) : Int)) / (2 * ((2 : Nat) : Int)) :=
    Int.fdiv_eq_ediv _ (by decide)
  rw [h2, h3]
  push_cast
  omega

/-- C2 counterexample: on `store2` the detected windows start 2024-01-14 and
2024-02-15 with cycle estimates 28 and 29; `setDate` truncates the fractional
average 28.5, so the prediction starts 2024-03-14 while the claimed
`lastStart + round(average)` would be 2024-03-15 (and `cycleLengthDays` is
reported as round(28.5) = 29). -/
theorem claim_C2_counterexample :
    (analyzeFertileWindows store2).map (fun w => w.startDate) =
      ["2024-01-14", "2024-02-15"] ∧
    (predictNextFertileWindow (analyzeFertileWindows store2)).map
      (fun p => (p.startDate, p.endDate, p.cycleLength)) =
      some ("2024-03-14", "2024-03-20", 29) ∧
    parseIsoDate "2024-02-15" = some ⟨2024, 2, 15⟩ ∧
    isoString (addDays ⟨2024, 2, 15⟩ 29) = "2024-03-15" ∧
    ("2024-03-14" : String) ≠ "2024-03-15" := by
  refine ⟨by decide, by decide, by decide, by decide, by decide⟩

/-- C2 amended: a produced Prediction has `cycleLengthDays = round(average)`
and `endDate = startDate + 6 days`, but its startDate is the last window's
startDate advanced by `trunc(average)` days (Date.setDate truncates the
fractional average), which equals `startDate + cycleLengthDays` exactly when
the two cycle-length estimates have an even sum. -/
theorem claim_C2_amended (windows : List FertileWindow) (p : Prediction)
    (w1 w2 : FertileWindow) (c1 c2 : Int) (d2 : CivilDate)
    (hlast : windows.drop (windows.length - 2) = [w1, w2])
    (hp : predictNextFertileWindow windows = some p)
    (hc1 : calculateCycleLength w1 = some c1)
    (hc2 : calculateCycleLength w2 = some c2)
    (hd2 : parseIsoDate w2.startDate = some d2) :
    p.cycleLength = jsRoundFrac ⟨c1 + c2, 2⟩ ∧
    p.startDate = isoString (addDays d2 (jsTruncFrac ⟨c1 + c2, 2⟩)) ∧
    p.endDate = isoString (addDays (addDays d2 (jsTruncFrac ⟨c1 + c2, 2⟩)) 6) ∧
    ((c1 + c2) % 2 = 0 →
      p.startDate = isoString (addDays d2 p.cycleLength)) := by
  have hlen : 2 ≤ windows.length := by
    have hcl := congrArg List.length hlast
    simp at hcl
    omega
  have heq : predictNextFertileWindow windows = some
      { startDate := isoString (setDayOfMonth d2
          (jsTruncFrac (fadd (intFrac d2.day) ⟨c1 + c2, 2⟩))),
        endDate := isoString (setDayOfMonth
          (setDayOfMonth d2 (jsTruncFrac (fadd (intFrac d2.day) ⟨c1 + c2, 2⟩)))
          (((setDayOfMonth d2 (jsTruncFrac (fadd (intFrac d2.day) ⟨c1 + c2, 2⟩))).day : Int) + 6)),
        cycleLength := jsRoundFrac ⟨c1 + c2, 2⟩ } := by
    unfold predictNextFertileWindow
    rw [if_neg (by omega), hlast]
    dsimp only
    rw [hc1, hc2, hd2]
  rw [heq] at hp
  have hps := Option.some.inj hp
  have hc1b := calculateCycleLength_bounds w1 c1 hc1
  have hc2b := calculateCycleLength_bounds w2 c2 hc2
  have hnum : (0 : Int) ≤ c1 + c2 := by omega
  have htr : jsTruncFrac (fadd (intFrac (d2.day : Int)) ⟨c1 + c2, 2⟩) =
      (d2.day : Int) + jsTruncFrac ⟨c1 + c2, 2⟩ :=
    jsTrunc_add_int (d2.day : Int) ⟨c1 + c2, 2⟩ (Int.ofNat_nonneg _) hnum (Nat.succ_pos 1)
  have hns : setDayOfMonth d2 (jsTruncFrac (fadd (intFrac (d2.day : Int)) ⟨c1 + c2, 2⟩)) =
      addDays d2 (jsTruncFrac ⟨c1 + c2, 2⟩) := by
    rw [htr]
    exact setDayOfMonth_add d2 (jsTruncFrac ⟨c1 + c2, 2⟩)
  rw [← hps]
  refine ⟨rfl, ?_, ?_, ?_⟩
  · simp only [intFrac] at hns ⊢
    rw [hns]
  · simp only [intFrac] at hns ⊢
    rw [hns, setDayOfMonth_add]
  · intro heven
    simp only [intFrac] at hns ⊢
    rw [hns, ← jsTrunc_eq_jsRound_of_even (c1 + c2) hnum heven]

theorem claim_C2_amended_witness :
    (⟨"2024-03-14", "2024-03-20", 29⟩ : Prediction).cycleLength =
      jsRoundFrac ⟨28 + 29, 2⟩ ∧
    (⟨"2024-03-14", "2024-03-20", 29⟩ : Prediction).startDate =
      isoString (addDays ⟨2024, 2, 15⟩ (jsTruncFrac ⟨28 + 29, 2⟩)) ∧
    (⟨"2024-03-14", "2024-03-20", 29⟩ : Prediction).endDate =
      isoString (addDays (addDays ⟨2024, 2, 15⟩ (jsTruncFrac ⟨28 + 29, 2⟩)) 6) ∧
    ((28 + 29 : Int) % 2 = 0 →
      (⟨"2024-03-14", "2024-03-20", 29⟩ : Prediction).startDate =
        isoString (addDays ⟨2024, 2, 15⟩
          (⟨"2024-03-14", "2024-03-20", 29⟩ : Prediction).cycleLength)) :=
  claim_C2_amended
    [⟨"2024-01", "2024-01-14", "2024-01-20", ⟨98, 1⟩, []⟩,
     ⟨"2024-02", "2024-02-15", "2024-02-21", ⟨98, 1⟩, []⟩]
    ⟨"2024-03-14", "2024-03-20", 29⟩
    ⟨"2024-01", "2024-01-14", "2024-01-20", ⟨98, 1⟩, []⟩
    ⟨"2024-02", "2024-02-15", "2024-02-21", ⟨98, 1⟩, []⟩
    28 29 ⟨2024, 2, 15⟩ (by decide) (by decide) (by decide) (by decide) (by decide)

/-! ## Claim C7 -/

theorem jsRoundFrac_bounds (s : Int) (h1 : 42 ≤ s) (h2 : s ≤ 70) :
    21 ≤ jsRoundFrac ⟨s, 2⟩ ∧ jsRoundFrac ⟨s, 2⟩ ≤ 35 := by
  simp only [jsRoundFrac]
  have h3 : Int.fdiv (2 * s + ((2 : Nat) : Int)) (2 * ((2 : Nat) : Int)) =
      (2 * s + ((2 : Nat) : Int)) / (2 * ((2 : Nat) : Int)) :=
    Int.fdiv_eq_ediv _ (by decide)
  rw [h3]
  push_cast
  omega

/-- C7: every per-window cycle-length estimate is
`clamp(28 + (dayOfMonth(startDate) - 14), 21, 35)` with `dayOfMonth` the
1-based day of month, and consequently every produced Prediction's
`cycleLengthDays` is an integer in [21, 35]. -/
theorem claim_C7 :
    (∀ (fw : FertileWindow) (d : CivilDate), parseIsoDate fw.startDate = some d →
      calculateCycleLength fw = some (max 21 (min 35 (28 + ((d.day : Int) - 14)))) ∧
      21 ≤ max 21 (min 35 (28 + ((d.day : Int) - 14))) ∧
      max 21 (min 35 (28 + ((d.day : Int) - 14))) ≤ 35) ∧
    (∀ (windows : List FertileWindow) (p : Prediction),
      predictNextFertileWindow windows = some p →
      21 ≤ p.cycleLength ∧ p.cycleLength ≤ 35) := by
  constructor
  · intro fw d hd
    refine ⟨by simp [calculateCycleLength, hd], by omega, by omega⟩
  · intro windows p hp
    unfold predictNextFertileWindow at hp
    split at hp
    · exact absurd hp (by simp)
    · split at hp
      · split at hp
        next c1 c2 lastStart hc1 hc2 hd3 =>
          have hps := Option.some.inj hp
          have hb1 := calculateCycleLength_bounds _ _ hc1
          have hb2 := calculateCycleLength_bounds _ _ hc2
          have hbounds := jsRoundFrac_bounds (c1 + c2) (by omega) (by omega)
          rw [← hps]
          exact hbounds
        next => exact absurd hp (by simp)
      · exact absurd hp (by simp)

theorem claim_C7_witness :
    (calculateCycleLength
        (⟨"2024-01", "2024-01-10", "2024-01-16", ⟨98, 1⟩, []⟩ : FertileWindow) =
      some (max 21 (min 35 (28 + (((⟨2024, 1, 10⟩ : CivilDate).day : Int) - 14)))) ∧
      21 ≤ max 21 (min 35 (28 + (((⟨2024, 1, 10⟩ : CivilDate).day : Int) - 14))) ∧
      max 21 (min 35 (28 + (((⟨2024, 1, 10⟩ : CivilDate).day : Int) - 14))) ≤ 35) ∧
    (21 ≤ (⟨"2024-03-14", "2024-03-20", 29⟩ : Prediction).cycleLength ∧
      (⟨"2024-03-14", "2024-03-20", 29⟩ : Prediction).cycleLength ≤ 35) :=
  ⟨claim_C7.1 ⟨"2024-01", "2024-01-10", "2024-01-16", ⟨98, 1⟩, []⟩ ⟨2024, 1, 10⟩ (by decide),
   claim_C7.2
     [⟨"2024-01", "2024-01-14", "2024-01-20", ⟨98, 1⟩, []⟩,
      ⟨"2024-02", "2024-02-15", "2024-02-21", ⟨98, 1⟩, []⟩]
     ⟨"2024-03-14", "2024-03-20", 29⟩ (by decide)⟩

/-! ## Claim C8 -/

/-- C8 counterexample: the direct-entry path never validates the date — with
an in-range temperature and the invalid calendar date `2024-13-99`, the
reading is stored instead of failing with a validation error. -/
theorem claim_C8_counterexample :
    parseIsoDate "2024-13-99" = none ∧
    addTemperature [] "98.6" "2024-13-99" "" false =
      .ok [{ date := "2024-13-99", temperature := ⟨986, 10⟩, cervixHeight := none,
             ovulationStrip := false }] := by
  refine ⟨by decide, by decide⟩

/-- C8 amended: direct entry fails with the validation alert exactly when both
inputs are nonempty and the temperature is non-numeric or outside [95, 105];
empty input is a silent no-op; the date is never validated; and only the
successful outcome changes the store. -/
theorem claim_C8_amended (store : List Reading)
    (newTemp selectedDate cervixHeight : String) (ovulationStrip : Bool) :
    (addTemperature store newTemp selectedDate cervixHeight ovulationStrip =
        .validationError ↔
      newTemp ≠ "" ∧ selectedDate ≠ "" ∧
        (parseFloat newTemp = none ∨
          ∃ t, parseFloat newTemp = some t ∧
            (fltB t ⟨95, 1⟩ = true ∨ fltB ⟨105, 1⟩ t = true))) ∧
    (addTemperature store newTemp selectedDate cervixHeight ovulationStrip = .noop ↔
      newTemp = "" ∨ selectedDate = "") ∧
    (storeAfterAdd store newTemp selectedDate cervixHeight ovulationStrip = store ∨
      ∃ ns, addTemperature store newTemp selectedDate cervixHeight ovulationStrip = .ok ns ∧
        storeAfterAdd store newTemp selectedDate cervixHeight ovulationStrip = ns) := by
  by_cases h1 : newTemp = ""
  · simp [addTemperature, storeAfterAdd, h1]
  · by_cases h2 : selectedDate = ""
    · simp [addTemperature, storeAfterAdd, h1, h2]
    · cases hp : parseFloat newTemp with
      | none => simp [addTemperature, storeAfterAdd, h1, h2, hp]
      | some t =>
        by_cases hr : (fltB t ⟨95, 1⟩ || fltB ⟨105, 1⟩ t) = true
        · refine ⟨?_, ?_, ?_⟩
          · simp only [addTemperature, storeAfterAdd, h1, h2, hp, hr]
            simp only [Bool.or_eq_true] at hr
            simp [h1, h2, hp]
            exact hr
          · simp [addTemperature, h1, h2, hp, hr]
          · left
            simp [addTemperature, storeAfterAdd, h1, h2, hp, hr]
        · cases hidx : store.findIdx? (fun r => r.date == selectedDate) with
          | none =>
            refine ⟨?_, ?_, ?_⟩
            · simp only [Bool.or_eq_true] at hr
              push_neg at hr
              simp [addTemperature, h1, h2, hp, hidx, hr.1, hr.2]
            · simp [addTemperature, h1, h2, hp, hr, hidx]
            · right
              refine ⟨sortByDate (store ++
                  [mkEntry selectedDate t cervixHeight ovulationStrip]), ?_, ?_⟩
              · simp [addTemperature, h1, h2, hp, hr, hidx]
              · simp [addTemperature, storeAfterAdd, h1, h2, hp, hr, hidx]
          | some i =>
            refine ⟨?_, ?_, ?_⟩
            · simp only [Bool.or_eq_true] at hr
              push_neg at hr
              simp [addTemperature, h1, h2, hp, hidx, hr.1, hr.2]
            · simp [addTemperature, h1, h2, hp, hr, hidx]
            · right
              refine ⟨store.set i (mkEntry selectedDate t cervixHeight ovulationStrip), ?_, ?_⟩
              · simp [addTemperature, h1, h2, hp, hr, hidx]
              · simp [addTemperature, storeAfterAdd, h1, h2, hp, hr, hidx]

/-! ## Rows accepted by the import loop -/

theorem parseRow_ok_some (existingDates : List String) (dateIndex tempIndex : Nat)
    (cervixIndex ovulationIndex : Option Nat) (line : String) (r : Reading)
    (h : parseRow existingDates dateIndex tempIndex cervixIndex ovulationIndex line =
      .ok (some r)) :
    existingDates.contains r.date = false ∧ (parseIsoDate r.date).isSome = true := by
  simp only [parseRow] at h
  split at h
  · exact absurd h (by simp)
  · split at h
    · exact absurd h (by simp)
    · split at h
      · exact absurd h (by simp)
      · split at h
        · exact absurd h (by simp)
        · split at h
          · exact absurd h (by simp)
          next date hdate =>
            split at h
            · exact absurd h (by simp)
            next hvalid =>
              split at h
              · exact absurd h (by simp)
              next hdup =>
                split at h
                · exact absurd h (by simp)
                next ovStr hov =>
                  have hr := Option.some.inj (Except.ok.inj h)
                  have hrdate : r.date = date := by rw [← hr]
                  rw [hrdate]
                  constructor
                  · exact Bool.not_eq_true _ ▸ hdup
                  · exact Option.ne_none_iff_isSome.1 (by simpa using hvalid)

theorem collectRows_ok_mem (existingDates : List String) (dateIndex tempIndex : Nat)
    (cervixIndex ovulationIndex : Option Nat) (lines : List String) (rs : List Reading)
    (h : collectRows existingDates dateIndex tempIndex cervixIndex ovulationIndex lines =
      .ok rs) :
    ∀ r ∈ rs, existingDates.contains r.date = false ∧ (parseIsoDate r.date).isSome = true := by
  induction lines generalizing rs with
  | nil =>
    simp only [collectRows] at h
    have : rs = [] := (Except.ok.inj h).symm
    subst this
    simp
  | cons line rest ih =>
    simp only [collectRows] at h
    split at h
    · exact absurd h (by simp)
    · exact ih rs h
    next r0 hrow =>
      split at h
      · exact absurd h (by simp)
      next rs0 hrs0 =>
        have : r0 :: rs0 = rs := Except.ok.inj h
        subst this
        intro r hr
        rcases List.mem_cons.1 hr with rfl | hr
        · exact parseRow_ok_some _ _ _ _ _ _ _ hrow
        · exact ih rs0 hrs0 r hr

theorem importCSV_ok_eq (store : List Reading) (csvText : String) (ns : List Reading) (n : Nat)
    (h : importCSV store csvText = .ok ns n) :
    ns = sortByDate (store ++ importedRowsOf store csvText) ∧
    n = (importedRowsOf store csvText).length ∧
    (∀ r ∈ importedRowsOf store csvText,
      (store.map (fun t => t.date)).contains r.date = false ∧
        (parseIsoDate r.date).isSome = true) := by
  simp only [importCSV] at h
  split at h
  next dateIndex tempIndex cervixIndex ovulationIndex hh =>
    split at h
    · exact absurd h (by simp)
    next rs hrs =>
      split at h
      · exact absurd h (by simp)
      next hlen =>
        have hrows : importedRowsOf store csvText = rs := by
          simp only [importedRowsOf]
          rw [hh]
          dsimp only
          rw [hrs]
        injection h with h2 h3
        rw [hrows]
        exact ⟨h2.symm, h3.symm, collectRows_ok_mem _ _ _ _ _ _ _ hrs⟩
  next => exact absurd h (by simp)

/-! ## Claim C3 -/

theorem findIdx?_some_spec {α : Type} (p : α → Bool) (l : List α) (i j : Nat)
    (h : List.findIdx? p l i = some j) :
    ∃ k, j = i + k ∧ ∃ hk : k < l.length, p (l.get ⟨k, hk⟩) = true := by
  induction l generalizing i with
  | nil => simp [List.findIdx?] at h
  | cons x xs ih =>
    rw [List.findIdx?_cons] at h
    by_cases hp : p x = true
    · rw [if_pos hp] at h
      have hj := Option.some.inj h
      exact ⟨0, by omega, ⟨by simp, by simpa [List.get] using hp⟩⟩
    · rw [if_neg hp] at h
      rcases ih (i + 1) h with ⟨k, hk1, hk2, hk3⟩
      exact ⟨k + 1, by omega, ⟨by simpa using hk2, by simpa [List.get] using hk3⟩⟩

theorem set_eq_map_replace (l : List Reading) (i : Nat) (e : Reading) (d : String)
    (hnd : datesNodup l) (hi : i < l.length) (hdate : (l.get ⟨i, hi⟩).date = d) :
    l.set i e = l.map (fun r => if r.date = d then e else r) := by
  induction l generalizing i with
  | nil => simp at hi
  | cons x xs ih =>
    have hnd' : datesNodup xs := by
      simpa [datesNodup, List.nodup_cons] using (List.nodup_cons.1 hnd).2
    have hxnot : x.date ∉ xs.map (fun r => r.date) := by
      simpa [datesNodup] using (List.nodup_cons.1 hnd).1
    match i with
    | 0 =>
      have hxd : x.date = d := hdate
      rw [List.set_cons_zero, List.map_cons, if_pos hxd]
      have hrest : xs.map (fun r => if r.date = d then e else r) = xs := by
        have : ∀ r ∈ xs, (if r.date = d then e else r) = r := by
          intro r hr
          have hne : r.date ≠ d := by
            intro hcontra
            exact hxnot (hxd ▸ hcontra ▸ List.mem_map_of_mem (fun r => r.date) hr)
          rw [if_neg hne]
        rw [List.map_congr_left this]
        simp
      rw [hrest]
    | i + 1 =>
      have hi' : i < xs.length := by simpa using hi
      have hdate' : (xs.get ⟨i, hi'⟩).date = d := hdate
      have hxd : x.date ≠ d := by
        intro hcontra
        refine hxnot ?_
        rw [hcontra, ← hdate']
        exact List.mem_map_of_mem (fun r => r.date) (xs.get_mem _ _)
      rw [List.set_cons_succ, List.map_cons, if_neg hxd, ih i hnd' hi' hdate']

/-- C3 counterexample: a single CSV import into the empty store whose rows
repeat a date inserts two readings for that date — the import loop checks
parsed rows only against the pre-import store, not against each other. -/
theorem claim_C3_counterexample :
    (match importCSV [] "Date,Temp\n2024-01-01,98\n2024-01-01,99" with
      | .ok ns _ => ns.countP (fun r => r.date == "2024-01-01")
      | _ => 0) = 2 := by decide

/-- C3 amended: the one-reading-per-date invariant is preserved by direct
entry unconditionally (and the upsert replaces the reading at an existing
date), and by CSV import provided the accepted rows of that one CSV carry
pairwise distinct dates; a CSV repeating a fresh date breaks the invariant. -/
theorem claim_C3_amended (store : List Reading) (hnd : datesNodup store) :
    (∀ newTemp selectedDate cervixHeight ovulationStrip ns,
      addTemperature store newTemp selectedDate cervixHeight ovulationStrip = .ok ns →
      datesNodup ns ∧
      (∀ r₀ ∈ store, r₀.date = selectedDate →
        ∃ t, parseFloat newTemp = some t ∧
          ns = store.map (fun r => if r.date = selectedDate then
            mkEntry selectedDate t cervixHeight ovulationStrip else r))) ∧
    (∀ csvText ns n, importCSV store csvText = .ok ns n →
      datesNodup (importedRowsOf store csvText) → datesNodup ns) := by
  constructor
  · intro newTemp selectedDate cervixHeight ovulationStrip ns hadd
    simp only [addTemperature] at hadd
    split at hadd
    · exact absurd hadd (by simp)
    · split at hadd
      · exact absurd hadd (by simp)
      next t hparse =>
        split at hadd
        · exact absurd hadd (by simp)
        next hrange =>
          split at hadd
          next i hidx =>
            have hns := AddResult.ok.inj hadd
            rcases findIdx?_some_spec _ store 0 i hidx with ⟨k, hk0, hk, hpk⟩
            have hk0' : i = k := by omega
            subst hk0'
            have hdk : (store.get ⟨i, hk⟩).date = selectedDate := by simpa using hpk
            have hmap : store.set i (mkEntry selectedDate t cervixHeight ovulationStrip) =
                store.map (fun r => if r.date = selectedDate then
                  mkEntry selectedDate t cervixHeight ovulationStrip else r) :=
              set_eq_map_replace store i _ selectedDate hnd hk hdk
            constructor
            · rw [← hns, hmap]
              have hsame : ns = ns := rfl
              have : (store.map (fun r => if r.date = selectedDate then
                  mkEntry selectedDate t cervixHeight ovulationStrip else r)).map
                    (fun r => r.date) = store.map (fun r => r.date) := by
                rw [List.map_map]
                refine List.map_congr_left ?_
                intro r _
                by_cases hrd : r.date = selectedDate
                · simp [Function.comp, hrd, mkEntry]
                · simp [Function.comp, hrd]
              simpa [datesNodup, this] using hnd
            · intro r₀ _ _
              exact ⟨t, hparse, by rw [← hns, hmap]⟩
          next hidx =>
            have hns := AddResult.ok.inj hadd
            have hnotin : selectedDate ∉ store.map (fun r => r.date) := by
              intro hmem
              rcases List.mem_map.1 hmem with ⟨r, hr, hrd⟩
              have := List.findIdx?_eq_none_iff.1 hidx r hr
              simp [hrd] at this
            constructor
            · rw [← hns]
              have hperm : (sortByDate (store ++
                  [mkEntry selectedDate t cervixHeight ovulationStrip])).map (fun r => r.date)
                  |>.Perm ((store ++ [mkEntry selectedDate t cervixHeight ovulationStrip]).map
                    (fun r => r.date)) :=
                (sortByDate_perm _).map _
              refine hperm.nodup_iff.2 ?_
              rw [List.map_append]
              refine List.Nodup.append hnd (by simp [datesNodup]) ?_
              intro a ha hb
              simp only [List.map_cons, List.map_nil, List.mem_singleton, mkEntry] at hb
              rw [hb] at ha
              exact hnotin ha
            · intro r₀ hr₀ hr₀d
              exfalso
              have := List.findIdx?_eq_none_iff.1 hidx r₀ hr₀
              simp [hr₀d] at this
  · intro csvText ns n himp hrowsnd
    rcases importCSV_ok_eq store csvText ns n himp with ⟨hns, _, hfresh⟩
    rw [hns]
    have hperm : (sortByDate (store ++ importedRowsOf store csvText)).map (fun r => r.date)
        |>.Perm ((store ++ importedRowsOf store csvText).map (fun r => r.date)) :=
      (sortByDate_perm _).map _
    refine hperm.nodup_iff.2 ?_
    rw [List.map_append]
    refine List.Nodup.append hnd hrowsnd ?_
    intro a ha hb
    rcases List.mem_map.1 hb with ⟨r, hr, hrd⟩
    have hcf := (hfresh r hr).1
    have hmem : r.date ∈ store.map (fun t => t.date) := by
      rw [hrd]
      exact ha
    have hctrue : (store.map (fun t => t.date)).contains r.date = true :=
      List.elem_iff.2 hmem
    rw [hcf] at hctrue
    exact Bool.false_ne_true hctrue

theorem claim_C3_amended_witness :
    datesNodup
      [{ date := "2024-01-01", temperature := ⟨986, 10⟩, cervixHeight := none,
         ovulationStrip := false }] ∧
    (∀ r₀ ∈ [mkRead 1 1 ⟨97, 1⟩], r₀.date = "2024-01-01" →
      ∃ t, parseFloat "98.6" = some t ∧
        [{ date := "2024-01-01", temperature := ⟨986, 10⟩, cervixHeight := none,
           ovulationStrip := false }] =
          [mkRead 1 1 ⟨97, 1⟩].map (fun r => if r.date = "2024-01-01" then
            mkEntry "2024-01-01" t "" false else r)) :=
  (claim_C3_amended [mkRead 1 1 ⟨97, 1⟩] (by simp [datesNodup])).1 "98.6" "2024-01-01" "" false
    [{ date := "2024-01-01", temperature := ⟨986, 10⟩, cervixHeight := none,
       ovulationStrip := false }] (by decide)

/-! ## Claim C9 -/

/-- C9: a successful CSV import never modifies or removes existing readings:
every pre-existing reading survives, every accepted row's date is fresh
(rows with an existing date are dropped, not merged), and for every date
already in the store the readings stored under it are unchanged. -/
theorem claim_C9 (store : List Reading) (csvText : String) (ns : List Reading) (n : Nat)
    (h : importCSV store csvText = .ok ns n) :
    (∀ r ∈ store, r ∈ ns) ∧
    (∀ r ∈ importedRowsOf store csvText, ¬ r.date ∈ store.map (fun t => t.date)) ∧
    (∀ d, d ∈ store.map (fun t => t.date) →
      ((ns.filter (fun r => r.date == d)).Perm (store.filter (fun r => r.date == d)) ∧
        ∀ r₀, store.filter (fun r => r.date == d) = [r₀] →
          ns.filter (fun r => r.date == d) = [r₀])) := by
  rcases importCSV_ok_eq store csvText ns n h with ⟨hns, _, hfresh⟩
  have hfresh' : ∀ r ∈ importedRowsOf store csvText,
      ¬ r.date ∈ store.map (fun t => t.date) := by
    intro r hr hmem
    have hctrue : (store.map (fun t => t.date)).contains r.date = true :=
      List.elem_iff.2 hmem
    rw [(hfresh r hr).1] at hctrue
    exact Bool.false_ne_true hctrue
  refine ⟨?_, hfresh', ?_⟩
  · intro r hr
    rw [hns]
    exact (sortByDate_perm _).mem_iff.2 (List.mem_append_left _ hr)
  · intro d hd
    have hrowsnil : (importedRowsOf store csvText).filter (fun r => r.date == d) = [] := by
      rw [List.filter_eq_nil_iff]
      intro r hr
      intro hbeq
      have hrd : r.date = d := by simpa using hbeq
      exact hfresh' r hr (hrd ▸ hd)
    have hpermfil : (ns.filter (fun r => r.date == d)).Perm
        (store.filter (fun r => r.date == d)) := by
      rw [hns]
      have h1 : ((sortByDate (store ++ importedRowsOf store csvText)).filter
          (fun r => r.date == d)).Perm
          (((store ++ importedRowsOf store csvText)).filter (fun r => r.date == d)) :=
        (sortByDate_perm _).filter _
      rw [List.filter_append, hrowsnil, List.append_nil] at h1
      exact h1
    refine ⟨hpermfil, ?_⟩
    intro r₀ hr₀
    rw [hr₀] at hpermfil
    exact List.perm_singleton.1 hpermfil

theorem claim_C9_witness :
    (∀ r ∈ [mkRead 1 1 ⟨97, 1⟩], r ∈ [mkRead 1 1 ⟨97, 1⟩,
        { date := "2024-01-02", temperature := ⟨98, 1⟩, cervixHeight := none,
          ovulationStrip := false }]) ∧
    (∀ r ∈ importedRowsOf [mkRead 1 1 ⟨97, 1⟩] "Date,Temp\n2024-01-02,98",
      ¬ r.date ∈ [mkRead 1 1 ⟨97, 1⟩].map (fun t => t.date)) ∧
    (∀ d, d ∈ [mkRead 1 1 ⟨97, 1⟩].map (fun t => t.date) →
      (([mkRead 1 1 ⟨97, 1⟩,
          { date := "2024-01-02", temperature := ⟨98, 1⟩, cervixHeight := none,
            ovulationStrip := false }].filter (fun r => r.date == d)).Perm
        ([mkRead 1 1 ⟨97, 1⟩].filter (fun r => r.date == d)) ∧
        ∀ r₀, [mkRead 1 1 ⟨97, 1⟩].filter (fun r => r.date == d) = [r₀] →
          [mkRead 1 1 ⟨97, 1⟩,
            { date := "2024-01-02", temperature := ⟨98, 1⟩, cervixHeight := none,
              ovulationStrip := false }].filter (fun r => r.date == d) = [r₀])) :=
  claim_C9 [mkRead 1 1 ⟨97, 1⟩] "Date,Temp\n2024-01-02,98"
    [mkRead 1 1 ⟨97, 1⟩,
     { date := "2024-01-02", temperature := ⟨98, 1⟩, cervixHeight := none,
       ovulationStrip := false }] 1 (by decide)

/-! ## Claim C10 -/

/-- C10 counterexample: with header `date,temp,ovulation`, the data row
`2024-01-01,98.6` is long enough for the date and temperature columns, yet
the whole import aborts with a caught exception (`row[ovulationIndex]` is
`undefined` and `.toLowerCase()` throws) instead of importing the row with a
negative ovulation test. -/
theorem claim_C10_counterexample :
    (jsSplit ',' "2024-01-01,98.6").length = 2 ∧
    headerIndices "date,temp,ovulation" = (some 0, some 1, none, some 2) ∧
    importCSV [] "date,temp,ovulation\n2024-01-01,98.6" = .thrown := by
  refine ⟨by decide, by decide, by decide⟩

/-- C10 amended: a data row is skipped as too short exactly when it has fewer
than `max(dateIndex, tempIndex) + 1` fields; an otherwise-valid row lacking
the cervix column is still imported with the secondary signal absent, but a
row lacking the ovulation column (when the header resolves one) makes the
whole import fail with an error instead of importing the row with a negative
test. -/
theorem claim_C10_amended (existingDates : List String) (dateIndex tempIndex : Nat)
    (cervixIndex ovulationIndex : Option Nat) (line : String) (row : List String)
    (hrow : jsSplit ',' line = row) :
    (row.length < max dateIndex tempIndex + 1 →
      parseRow existingDates dateIndex tempIndex cervixIndex ovulationIndex line = .ok none) ∧
    (∀ temp,
      max dateIndex tempIndex + 1 ≤ row.length →
      strContains (jsTrim (row.getD dateIndex "")) "/" = false →
      strContains (jsTrim (row.getD dateIndex "")) "-" = true →
      parseFloat (jsTrim (row.getD tempIndex "")) = some temp →
      fltB temp ⟨95, 1⟩ = false → fltB ⟨105, 1⟩ temp = false →
      (parseIsoDate (jsTrim (row.getD dateIndex ""))).isSome = true →
      existingDates.contains (jsTrim (row.getD dateIndex "")) = false →
      ((∃ ci, cervixIndex = some ci ∧ row.length ≤ ci) →
        (match ovulationIndex with
         | none => True
         | some oi => oi < row.length) →
        ∃ r, parseRow existingDates dateIndex tempIndex cervixIndex ovulationIndex line =
            .ok (some r) ∧ r.cervixHeight = none) ∧
      ((∃ oi, ovulationIndex = some oi ∧ row.length ≤ oi) →
        parseRow existingDates dateIndex tempIndex cervixIndex ovulationIndex line =
          .error ())) := by
  constructor
  · intro hshort
    simp only [parseRow, hrow]
    rw [if_pos hshort]
  · intro temp hlong hslash hdash htemp hlo hhi hvalid hdup
    have hnotshort : ¬ row.length < max dateIndex tempIndex + 1 := by omega
    have hfmt : (!(strContains (jsTrim (row.getD dateIndex "")) "/") &&
        !(strContains (jsTrim (row.getD dateIndex "")) "-")) = false := by
      rw [hslash, hdash]
      rfl
    have hrange : (fltB temp ⟨95, 1⟩ || fltB ⟨105, 1⟩ temp) = false := by
      rw [hlo, hhi]
      rfl
    have hnone : ¬ (parseIsoDate (jsTrim (row.getD dateIndex ""))).isNone = true := by
      simp only [Option.isNone_iff_eq_none]
      intro hcontra
      rw [hcontra] at hvalid
      simp at hvalid
    constructor
    · rintro ⟨ci, rfl, hci⟩ hoi
      have hcervix : (row.get? ci) = none := List.get?_eq_none.2 hci
      cases hov : ovulationIndex with
      | none =>
        have heq : parseRow existingDates dateIndex tempIndex (some ci) none line =
            .ok (some { date := jsTrim (row.getD dateIndex ""), temperature := temp,
                        cervixHeight := none, ovulationStrip := false }) := by
          unfold parseRow
          rw [hrow]
          dsimp only
          rw [if_neg hnotshort]
          rw [if_neg (by rw [hfmt]; simp)]
          rw [htemp]
          dsimp only
          rw [if_neg (by rw [hrange]; simp)]
          rw [if_neg (by rw [hslash]; simp)]
          dsimp only
          rw [if_neg hnone]
          rw [if_neg (by rw [hdup]; simp)]
          rw [hcervix]
          rfl
        exact ⟨_, heq, rfl⟩
      | some oi =>
        rw [hov] at hoi
        have hoival : row.get? oi = some (row.get ⟨oi, hoi⟩) := List.get?_eq_get hoi
        have heq : parseRow existingDates dateIndex tempIndex (some ci) (some oi) line =
            .ok (some { date := jsTrim (row.getD dateIndex ""), temperature := temp,
                        cervixHeight := none,
                        ovulationStrip :=
                          strToLower (jsTrim (row.get ⟨oi, hoi⟩)) == "true" ||
                          jsTrim (row.get ⟨oi, hoi⟩) == "1" ||
                          strToLower (jsTrim (row.get ⟨oi, hoi⟩)) == "yes" }) := by
          unfold parseRow
          rw [hrow]
          dsimp only
          rw [if_neg hnotshort]
          rw [if_neg (by rw [hfmt]; simp)]
          rw [htemp]
          dsimp only
          rw [if_neg (by rw [hrange]; simp)]
          rw [if_neg (by rw [hslash]; simp)]
          dsimp only
          rw [if_neg hnone]
          rw [if_neg (by rw [hdup]; simp)]
          rw [hcervix, hoival]
          rfl
        exact ⟨_, heq, rfl⟩
    · rintro ⟨oi, rfl, hoi⟩
      have hovul : (row.get? oi) = none := List.get?_eq_none.2 hoi
      unfold parseRow
      rw [hrow]
      dsimp only
      rw [if_neg hnotshort]
      rw [if_neg (by rw [hfmt]; simp)]
      rw [htemp]
      dsimp only
      rw [if_neg (by rw [hrange]; simp)]
      rw [if_neg (by rw [hslash]; simp)]
      dsimp only
      rw [if_neg hnone]
      rw [if_neg (by rw [hdup]; simp)]
      rw [hovul]
      rfl

theorem claim_C10_amended_witness :
    (∃ r, parseRow [] 0 1 (some 5) none "2024-01-01,98.6" = .ok (some r) ∧
      r.cervixHeight = none) ∧
    parseRow [] 0 1 (some 5) (some 2) "2024-01-01,98.6" = .error () :=
  ⟨((claim_C10_amended [] 0 1 (some 5) none "2024-01-01,98.6"
        (jsSplit ',' "2024-01-01,98.6") rfl).2 ⟨986, 10⟩ (by decide) (by decide)
        (by decide) (by decide) (by decide) (by decide) (by decide) (by decide)).1
      ⟨5, rfl, by decide⟩ trivial,
   ((claim_C10_amended [] 0 1 (some 5) (some 2) "2024-01-01,98.6"
        (jsSplit ',' "2024-01-01,98.6") rfl).2 ⟨986, 10⟩ (by decide) (by decide)
        (by decide) (by decide) (by decide) (by decide) (by decide) (by decide)).2
      ⟨2, rfl, by decide⟩⟩

/-! ## Split and join of separated text -/

theorem splitCharList_ne_nil (c : Char) (l : List Char) : splitCharList c l ≠ [] := by
  cases l with
  | nil => simp [splitCharList]
  | cons x xs =>
    simp only [splitCharList]
    match h : splitCharList c xs with
    | [] => simp
    | g :: gs =>
      by_cases hx : x = c
      · simp [hx]
      · simp [hx]

theorem splitCharList_no_sep (c : Char) (p : List Char) (h : ¬ c ∈ p) :
    splitCharList c p = [p] := by
  induction p with
  | nil => rfl
  | cons x xs ih =>
    have hx : ¬ x = c := fun hc => h (hc ▸ List.mem_cons_self _ _)
    have hxs : ¬ c ∈ xs := fun hc => h (List.mem_cons_of_mem _ hc)
    simp only [splitCharList, ih hxs]
    rw [if_neg hx]

theorem splitCharList_append_sep (c : Char) (p rest : List Char) (h : ¬ c ∈ p) :
    splitCharList c (p ++ c :: rest) = p :: splitCharList c rest := by
  induction p with
  | nil =>
    simp only [List.nil_append, splitCharList]
    match hr : splitCharList c rest with
    | [] => exact absurd hr (splitCharList_ne_nil c rest)
    | g :: gs => simp
  | cons x xs ih =>
    have hx : ¬ x = c := fun hc => h (hc ▸ List.mem_cons_self _ _)
    have hxs : ¬ c ∈ xs := fun hc => h (List.mem_cons_of_mem _ hc)
    simp only [List.cons_append, splitCharList, List.append_eq, ih hxs]
    rw [if_neg hx]

theorem splitCharList_joinCharList (c : Char) (ps : List (List Char)) (hne : ps ≠ [])
    (hnc : ∀ p ∈ ps, ¬ c ∈ p) : splitCharList c (joinCharList c ps) = ps := by
  induction ps with
  | nil => exact absurd rfl hne
  | cons p ps ih =>
    cases ps with
    | nil =>
      simp only [joinCharList]
      exact splitCharList_no_sep c p (hnc p (List.mem_cons_self _ _))
    | cons q qs =>
      rw [joinCharList, splitCharList_append_sep c p _ (hnc p (List.mem_cons_self _ _))]
      rw [ih (by simp) (fun x hx => hnc x (List.mem_cons_of_mem _ hx))]

theorem not_mem_joinCharList (c x : Char) (ps : List (List Char))
    (hx : ∀ p ∈ ps, ¬ x ∈ p) (hxc : x ≠ c) : ¬ x ∈ joinCharList c ps := by
  induction ps with
  | nil => simp [joinCharList]
  | cons p ps ih =>
    cases ps with
    | nil => exact hx p (List.mem_cons_self _ _)
    | cons q qs =>
      rw [joinCharList]
      intro hmem
      rcases List.mem_append.1 hmem with hmem | hmem
      · exact hx p (List.mem_cons_self _ _) hmem
      · rcases List.mem_cons.1 hmem with rfl | hmem
        · exact hxc rfl
        · exact ih (fun y hy => hx y (List.mem_cons_of_mem _ hy)) hmem

theorem joinCharList_head? (c : Char) (p : List Char) (ps : List (List Char)) (hp : p ≠ []) :
    (joinCharList c (p :: ps)).head? = p.head? := by
  cases ps with
  | nil => rfl
  | cons q qs =>
    rw [joinCharList]
    cases p with
    | nil => exact absurd rfl hp
    | cons a p' => rfl

theorem joinCharList_ne_nil (c : Char) (p : List Char) (ps : List (List Char)) (hp : p ≠ []) :
    joinCharList c (p :: ps) ≠ [] := by
  cases ps with
  | nil => simpa [joinCharList] using hp
  | cons q qs =>
    rw [joinCharList]
    cases p with
    | nil => exact absurd rfl hp
    | cons a p' => simp

theorem joinCharList_concat_ne_nil (c : Char) (qs : List (List Char)) (p : List Char)
    (hp : p ≠ []) : joinCharList c (qs ++ [p]) ≠ [] := by
  cases qs with
  | nil => simpa [joinCharList] using hp
  | cons z zs =>
    obtain ⟨r, rs, hq⟩ : ∃ r rs, zs ++ [p] = r :: rs := by
      cases zs with
      | nil => exact ⟨p, [], rfl⟩
      | cons y ys => exact ⟨y, ys ++ [p], rfl⟩
    rw [List.cons_append, hq]
    show z ++ c :: joinCharList c (r :: rs) ≠ []
    simp

theorem joinCharList_getLast? (c : Char) (ps : List (List Char)) (p : List Char)
    (hp : p ≠ []) : (joinCharList c (ps ++ [p])).getLast? = p.getLast? := by
  induction ps with
  | nil => rfl
  | cons q qs ih =>
    obtain ⟨r, rs, hq⟩ : ∃ r rs, qs ++ [p] = r :: rs := by
      cases qs with
      | nil => exact ⟨p, [], rfl⟩
      | cons z zs => exact ⟨z, zs ++ [p], rfl⟩
    have hjoin : joinCharList c ((q :: qs) ++ [p]) = q ++ c :: joinCharList c (qs ++ [p]) := by
      rw [List.cons_append, hq]
      rfl
    have hne2 : joinCharList c (qs ++ [p]) ≠ [] := joinCharList_concat_ne_nil c qs p hp
    rw [hjoin, List.getLast?_append_of_ne_nil _ (by simp)]
    have hsplit : (c :: joinCharList c (qs ++ [p])) = [c] ++ joinCharList c (qs ++ [p]) := rfl
    rw [hsplit, List.getLast?_append_of_ne_nil _ hne2]
    exact ih

/-! ## Trim, containment, and split-join round trips for strings -/

theorem strEta (s : String) : String.mk s.data = s := by
  obtain ⟨l⟩ := s
  rfl

theorem dropWhile_eq_self_of_head {α : Type} (p : α → Bool) (l : List α)
    (h : ∀ x, l.head? = some x → p x = false) : l.dropWhile p = l := by
  cases l with
  | nil => rfl
  | cons a l' =>
    have ha := h a rfl
    simp [List.dropWhile_cons, ha]

theorem jsTrimList_eq_self (l : List Char)
    (h1 : ∀ x, l.head? = some x → isJsWs x = false)
    (h2 : ∀ x, l.getLast? = some x → isJsWs x = false) : jsTrimList l = l := by
  unfold jsTrimList
  rw [dropWhile_eq_self_of_head _ _ h1]
  rw [dropWhile_eq_self_of_head _ _ (fun x hx => h2 x (by rwa [List.head?_reverse] at hx))]
  exact List.reverse_reverse l

theorem jsTrim_eq_self (s : String)
    (h1 : ∀ x, s.data.head? = some x → isJsWs x = false)
    (h2 : ∀ x, s.data.getLast? = some x → isJsWs x = false) : jsTrim s = s := by
  unfold jsTrim
  rw [jsTrimList_eq_self s.data h1 h2]

theorem containsSubList_singleton (c : Char) (l : List Char) :
    containsSubList [c] l = true ↔ c ∈ l := by
  induction l with
  | nil => simp [containsSubList]
  | cons x xs ih =>
    simp only [containsSubList, Bool.or_eq_true, List.mem_cons, ih]
    constructor
    · rintro (h | h)
      · left
        have hcx : (c == x) = true := by
          simpa [List.isPrefixOf] using h
        exact eq_of_beq hcx
      · right
        exact h
    · rintro (rfl | h)
      · left
        simp [List.isPrefixOf]
      · right
        exact h

theorem not_mem_of_single_contains_false (s : String) (c : Char) (sub : String)
    (hsub : sub.data = [c]) (h : strContains s sub = false) : ¬ c ∈ s.data := by
  intro hmem
  have htrue := (containsSubList_singleton c s.data).2 hmem
  rw [strContains, hsub] at h
  rw [h] at htrue
  exact Bool.false_ne_true htrue

theorem jsSplit_jsJoin (c : Char) (pieces : List String) (hne : pieces ≠ [])
    (hnc : ∀ p ∈ pieces, ¬ c ∈ p.data) : jsSplit c (jsJoin c pieces) = pieces := by
  unfold jsSplit jsJoin
  rw [show (String.mk (joinCharList c (pieces.map String.data))).data =
      joinCharList c (pieces.map String.data) from rfl]
  rw [splitCharList_joinCharList c _ (by simpa using hne) ?_]
  · have hid : ∀ p ∈ pieces, String.mk p.data = p := fun p _ => strEta p
    rw [List.map_map]
    calc pieces.map (String.mk ∘ String.data) = pieces.map id := by
          refine List.map_congr_left ?_
          intro p hp
          exact strEta p
      _ = pieces := List.map_id pieces
  · intro p hp
    rcases List.mem_map.1 hp with ⟨q, hq, rfl⟩
    exact hnc q hq

theorem headerIndices_export :
    headerIndices csvHeaderRow = (some 0, some 1, some 2, some 3) := by decide

/-! ## The exported row of a well-formed reading -/

theorem csvRowFor_fields_no_comma (fws : List FertileWindow) (r : Reading)
    (hwf : wfReading r) :
    ∀ p ∈ [r.date, printFrac r.temperature,
       (match r.cervixHeight with | some c => c | none => ""),
       (if r.ovulationStrip then "Yes" else "No"),
       (if isInFertileWindow fws r.date then "Yes" else "No")], ¬ ',' ∈ p.data := by
  obtain ⟨hvalid, hdc, hdn, hds, hdd, hdt, hpf, htc, htn, htt, hlo, hhi, hcerv⟩ := hwf
  intro p hp
  simp only [List.mem_cons, List.not_mem_nil, or_false] at hp
  rcases hp with rfl | rfl | rfl | rfl | rfl
  · exact not_mem_of_single_contains_false _ _ _ rfl hdc
  · exact not_mem_of_single_contains_false _ _ _ rfl htc
  · cases hc : r.cervixHeight with
    | none => simp
    | some cv =>
      rw [hc] at hcerv
      have hcerv' : cv ≠ "" ∧ jsTrim cv = cv ∧ strContains cv "," = false ∧
          strContains cv "\n" = false := hcerv
      exact not_mem_of_single_contains_false _ _ _ rfl hcerv'.2.2.1
  · by_cases hb : r.ovulationStrip = true
    · simp only [hb, if_true]
      decide
    · simp only [hb, if_false]
      decide
  · by_cases hb : isInFertileWindow fws r.date = true
    · simp only [hb, if_true]
      decide
    · simp only [hb, if_false]
      decide

theorem csvRowFor_fields_no_newline (fws : List FertileWindow) (r : Reading)
    (hwf : wfReading r) :
    ∀ p ∈ [r.date, printFrac r.temperature,
       (match r.cervixHeight with | some c => c | none => ""),
       (if r.ovulationStrip then "Yes" else "No"),
       (if isInFertileWindow fws r.date then "Yes" else "No")], ¬ '\n' ∈ p.data := by
  obtain ⟨hvalid, hdc, hdn, hds, hdd, hdt, hpf, htc, htn, htt, hlo, hhi, hcerv⟩ := hwf
  intro p hp
  simp only [List.mem_cons, List.not_mem_nil, or_false] at hp
  rcases hp with rfl | rfl | rfl | rfl | rfl
  · exact not_mem_of_single_contains_false _ _ _ rfl hdn
  · exact not_mem_of_single_contains_false _ _ _ rfl htn
  · cases hc : r.cervixHeight with
    | none => simp
    | some cv =>
      rw [hc] at hcerv
      have hcerv' : cv ≠ "" ∧ jsTrim cv = cv ∧ strContains cv "," = false ∧
          strContains cv "\n" = false := hcerv
      exact not_mem_of_single_contains_false _ _ _ rfl hcerv'.2.2.2
  · by_cases hb : r.ovulationStrip = true
    · simp only [hb, if_true]
      decide
    · simp only [hb, if_false]
      decide
  · by_cases hb : isInFertileWindow fws r.date = true
    · simp only [hb, if_true]
      decide
    · simp only [hb, if_false]
      decide

theorem jsSplit_csvRowFor (fws : List FertileWindow) (r : Reading) (hwf : wfReading r) :
    jsSplit ',' (csvRowFor fws r) =
      [r.date, printFrac r.temperature,
       (match r.cervixHeight with | some c => c | none => ""),
       (if r.ovulationStrip then "Yes" else "No"),
       (if isInFertileWindow fws r.date then "Yes" else "No")] :=
  jsSplit_jsJoin ',' _ (by simp) (csvRowFor_fields_no_comma fws r hwf)

theorem csvRowFor_no_newline (fws : List FertileWindow) (r : Reading) (hwf : wfReading r) :
    ¬ '\n' ∈ (csvRowFor fws r).data := by
  have hdata : (csvRowFor fws r).data = joinCharList ','
      ([r.date, printFrac r.temperature,
        (match r.cervixHeight with | some c => c | none => ""),
        (if r.ovulationStrip then "Yes" else "No"),
        (if isInFertileWindow fws r.date then "Yes" else "No")].map String.data) := rfl
  rw [hdata]
  refine not_mem_joinCharList ',' '\n' _ ?_ (by decide)
  intro p hp
  rcases List.mem_map.1 hp with ⟨q, hq, rfl⟩
  exact csvRowFor_fields_no_newline fws r hwf q hq

theorem csvRowFor_getLast?_nonWs (fws : List FertileWindow) (r : Reading) :
    ∀ x, (csvRowFor fws r).data.getLast? = some x → isJsWs x = false := by
  intro x hx
  have hdata : (csvRowFor fws r).data = joinCharList ','
      (([r.date, printFrac r.temperature,
        (match r.cervixHeight with | some c => c | none => ""),
        (if r.ovulationStrip then "Yes" else "No")].map String.data) ++
        [(if isInFertileWindow fws r.date then "Yes" else "No").data]) := rfl
  rw [hdata] at hx
  rw [joinCharList_getLast? ',' _ _ ?_] at hx
  · by_cases hb : isInFertileWindow fws r.date = true
    · rw [if_pos hb] at hx
      have hlast : ("Yes" : String).data.getLast? = some 's' := by decide
      rw [hlast] at hx
      rw [(Option.some.inj hx).symm]
      decide
    · rw [if_neg hb] at hx
      have hlast : ("No" : String).data.getLast? = some 'o' := by decide
      rw [hlast] at hx
      rw [(Option.some.inj hx).symm]
      decide
  · by_cases hb : isInFertileWindow fws r.date = true
    · rw [if_pos hb]
      decide
    · rw [if_neg hb]
      decide

theorem parseRow_csvRowFor (t : List Reading) (fws : List FertileWindow) (r : Reading)
    (hwf : wfReading r) (hfresh : ¬ r.date ∈ t.map (fun x => x.date)) :
    parseRow (t.map (fun x => x.date)) 0 1 (some 2) (some 3) (csvRowFor fws r) =
      .ok (some r) := by
  have hrow := jsSplit_csvRowFor fws r hwf
  obtain ⟨rd, rt, rc, ro⟩ := r
  obtain ⟨hvalid, hdc, hdn, hds, hdd, hdt, hpf, htc, htn, htt, hlo, hhi, hcerv⟩ := hwf
  dsimp only at hvalid hdc hdn hds hdd hdt hpf htc htn htt hlo hhi hcerv hfresh hrow
  have hdup : (t.map (fun x => x.date)).contains rd = false := by
    cases hcont : (t.map (fun x => x.date)).contains rd with
    | false => rfl
    | true => exact absurd (List.elem_iff.1 hcont) hfresh
  have hlo' : fltB rt ⟨95, 1⟩ = false := (fltB_false_iff _ _).2 hlo
  have hhi' : fltB ⟨105, 1⟩ rt = false := (fltB_false_iff _ _).2 hhi
  have hnone : ¬ (parseIsoDate rd).isNone = true := by
    simp only [Option.isNone_iff_eq_none]
    intro hcontra
    rw [hcontra] at hvalid
    simp at hvalid
  unfold parseRow
  rw [hrow]
  dsimp only
  rw [if_neg (by simp)]
  simp only [List.getD_cons_zero, List.getD_cons_succ, List.get?_cons_zero,
    List.get?_cons_succ, Option.map_some']
  rw [hdt, htt]
  rw [if_neg (by rw [hds, hdd]; simp)]
  rw [hpf]
  dsimp only
  rw [if_neg (by rw [hlo', hhi']; simp)]
  rw [if_neg (by rw [hds]; simp)]
  dsimp only
  rw [if_neg hnone]
  rw [if_neg (by rw [hdup]; simp)]
  cases rc with
  | none =>
    cases ro with
    | false => rfl
    | true => rfl
  | some cv =>
    have hcv : cv ≠ "" ∧ jsTrim cv = cv ∧ strContains cv "," = false ∧
        strContains cv "\n" = false := hcerv
    dsimp only
    rw [hcv.2.1, if_neg hcv.1]
    cases ro with
    | false => rfl
    | true => rfl

theorem collectRows_csvRows (t : List Reading) (fws : List FertileWindow) (s : List Reading)
    (hwf : ∀ r ∈ s, wfReading r) (hfresh : ∀ r ∈ s, ¬ r.date ∈ t.map (fun x => x.date)) :
    collectRows (t.map (fun x => x.date)) 0 1 (some 2) (some 3) (s.map (csvRowFor fws)) =
      .ok s := by
  induction s with
  | nil => rfl
  | cons r rest ih =>
    rw [List.map_cons]
    simp only [collectRows]
    rw [parseRow_csvRowFor t fws r (hwf r (List.mem_cons_self _ _))
      (hfresh r (List.mem_cons_self _ _))]
    rw [ih (fun x hx => hwf x (List.mem_cons_of_mem _ hx))
      (fun x hx => hfresh x (List.mem_cons_of_mem _ hx))]

/-- C4 counterexample: the export/import round trip does not hold for every
store state. Direct entry stores the invalid date `2024-13-99` (only the
temperature is validated); exporting that one-reading store and re-importing
the text into an empty store yields `.emptyResult` — the reading is silently
dropped, because import skips rows whose date fails `new Date` validation.
Direct entry likewise stores the free-text signal `"High, soft"`; its export
re-imports to a *different* reading whose signal is truncated at the comma,
since the unquoted CSV comma shifts the columns. -/
theorem claim_C4_counterexample :
    addTemperature [] "98.6" "2024-13-99" "" false =
      .ok [mkEntry "2024-13-99" ⟨986, 10⟩ "" false] ∧
    importCSV []
        ((downloadCSV [mkEntry "2024-13-99" ⟨986, 10⟩ "" false] []).getD "") =
      .emptyResult ∧
    addTemperature [] "98.6" "2024-03-05" "High, soft" false =
      .ok [mkEntry "2024-03-05" ⟨986, 10⟩ "High, soft" false] ∧
    importCSV []
        ((downloadCSV [mkEntry "2024-03-05" ⟨986, 10⟩ "High, soft" false] []).getD "") =
      .ok [mkEntry "2024-03-05" ⟨986, 10⟩ "High" false] 1 ∧
    mkEntry "2024-03-05" ⟨986, 10⟩ "High" false ≠
      mkEntry "2024-03-05" ⟨986, 10⟩ "High, soft" false := by
  decide

/-- C4 amended: the export/import round trip holds exactly on well-formed
stores. Exporting a non-empty store `s` of well-formed readings (valid
strict-ISO dates, print/reparse-stable in-range temperatures, secondary
signals free of separators — conditions a store reached only through entries
the date picker and import themselves produce does satisfy, but which direct
entry does not enforce in general) with `downloadCSV` and re-importing the
resulting text with `importCSV` into a store `t` with no overlapping dates
succeeds and reproduces exactly the readings of `s`: the resulting store is
the date-sorted concatenation of `t` and `s` and the reported count is
`s.length`. The derived Fertile Window column is present in the text but
ignored by import. -/
theorem claim_C4_amended (t s : List Reading) (fws : List FertileWindow) (csvText : String)
    (hwf : ∀ r ∈ s, wfReading r)
    (hdisj : ∀ r ∈ s, ¬ r.date ∈ t.map (fun x => x.date))
    (hne : s ≠ [])
    (hcsv : downloadCSV s fws = some csvText) :
    importCSV t csvText = .ok (sortByDate (t ++ s)) s.length := by
  have hlen : ¬ s.length = 0 := by simpa using hne
  have hcsv' : csvText = jsJoin '\n' (csvHeaderRow :: s.map (csvRowFor fws)) := by
    unfold downloadCSV at hcsv
    rw [if_neg hlen] at hcsv
    exact (Option.some.inj hcsv).symm
  subst hcsv'
  have hrowne : ∀ r, (csvRowFor fws r).data ≠ [] := by
    intro r
    have hdata : (csvRowFor fws r).data = joinCharList ','
        (([r.date, printFrac r.temperature,
          (match r.cervixHeight with | some c => c | none => ""),
          (if r.ovulationStrip then "Yes" else "No")].map String.data) ++
          [(if isInFertileWindow fws r.date then "Yes" else "No").data]) := rfl
    rw [hdata]
    refine joinCharList_concat_ne_nil ',' _ _ ?_
    by_cases hb : isInFertileWindow fws r.date = true
    · rw [if_pos hb]
      decide
    · rw [if_neg hb]
      decide
  have hhead : (jsJoin '\n' (csvHeaderRow :: s.map (csvRowFor fws))).data.head? =
      some 'D' := by
    have hdata : (jsJoin '\n' (csvHeaderRow :: s.map (csvRowFor fws))).data =
        joinCharList '\n' (csvHeaderRow.data :: (s.map (csvRowFor fws)).map String.data) := rfl
    rw [hdata, joinCharList_head? '\n' _ _ (by decide)]
    decide
  obtain ⟨s', rlast, hs⟩ := (List.eq_nil_or_concat s).resolve_left hne
  have hglast : ∀ x,
      (jsJoin '\n' (csvHeaderRow :: s.map (csvRowFor fws))).data.getLast? = some x →
      isJsWs x = false := by
    intro x hx
    have hmap : (csvHeaderRow :: s.map (csvRowFor fws)).map String.data =
        ((csvHeaderRow :: s'.map (csvRowFor fws)).map String.data) ++
          [(csvRowFor fws rlast).data] := by
      rw [hs]
      simp
    have hdata : (jsJoin '\n' (csvHeaderRow :: s.map (csvRowFor fws))).data =
        joinCharList '\n' ((csvHeaderRow :: s.map (csvRowFor fws)).map String.data) := rfl
    rw [hdata, hmap, joinCharList_getLast? '\n' _ _ (hrowne rlast)] at hx
    exact csvRowFor_getLast?_nonWs fws rlast x hx
  have htrim : jsTrim (jsJoin '\n' (csvHeaderRow :: s.map (csvRowFor fws))) =
      jsJoin '\n' (csvHeaderRow :: s.map (csvRowFor fws)) := by
    refine jsTrim_eq_self _ ?_ hglast
    intro x hx
    rw [hhead] at hx
    rw [(Option.some.inj hx).symm]
    decide
  have hsplit : jsSplit '\n' (jsJoin '\n' (csvHeaderRow :: s.map (csvRowFor fws))) =
      csvHeaderRow :: s.map (csvRowFor fws) := by
    refine jsSplit_jsJoin '\n' _ (by simp) ?_
    intro p hp
    rcases List.mem_cons.1 hp with rfl | hp'
    · decide
    · rcases List.mem_map.1 hp' with ⟨r, hr, rfl⟩
      exact csvRowFor_no_newline fws r (hwf r hr)
  simp only [importCSV]
  rw [htrim, hsplit]
  have hhd : (csvHeaderRow :: s.map (csvRowFor fws)).headD "" = csvHeaderRow := rfl
  rw [hhd, headerIndices_export]
  dsimp only
  rw [show (csvHeaderRow :: s.map (csvRowFor fws)).drop 1 = s.map (csvRowFor fws) from rfl]
  rw [collectRows_csvRows t fws s hwf hdisj]
  dsimp only
  rw [if_neg hlen]

theorem claim_C4_amended_witness :
    (∀ r ∈ [Reading.mk "2024-03-05" ⟨986, 10⟩ (some "Low") true], wfReading r) ∧
    downloadCSV [Reading.mk "2024-03-05" ⟨986, 10⟩ (some "Low") true] [] =
      some (jsJoin '\n' (csvHeaderRow ::
        [Reading.mk "2024-03-05" ⟨986, 10⟩ (some "Low") true].map (csvRowFor []))) ∧
    importCSV [mkRead 1 1 ⟨97, 1⟩]
        (jsJoin '\n' (csvHeaderRow ::
          [Reading.mk "2024-03-05" ⟨986, 10⟩ (some "Low") true].map (csvRowFor []))) =
      .ok (sortByDate ([mkRead 1 1 ⟨97, 1⟩] ++
        [Reading.mk "2024-03-05" ⟨986, 10⟩ (some "Low") true])) 1 :=
  ⟨by decide, rfl,
    claim_C4_amended [mkRead 1 1 ⟨97, 1⟩]
      [Reading.mk "2024-03-05" ⟨986, 10⟩ (some "Low") true] []
      (jsJoin '\n' (csvHeaderRow ::
        [Reading.mk "2024-03-05" ⟨986, 10⟩ (some "Low") true].map (csvRowFor [])))
      (by decide) (by decide) (by decide) rfl⟩
